import Mathlib

set_option maxRecDepth 8000
set_option linter.unusedVariables false

/-!
# Verification of the `indent-write` io adapter (`src/io.rs`)

Shallow embedding of `IndentWriter<W>` from `src/io.rs`.  Bytes are `Nat`
(the newline byte `b'\n'` is `10`).  The wrapped writer `W` is modelled as an
explicit sink-state type `σ` together with a write function
`σ → List Nat → SinkRes σ ε` (the sink may mutate its state, report an
`io`-style error `ε`, or panic) and a flush function.

Rust `usize` subtraction is checked arithmetic: `a - b` with `b > a` is an
arithmetic-overflow program error (a panic when overflow checks are enabled),
so `dec` is modelled as returning `Option` (`none` = overflow).  The
`indent_level` field is a `u16`, so `saturating_add(1)` saturates at `65535`.
Unguarded slice indexing `required_indent[a..b]` panics when `a > b` or
`b > len`; `writeGo`/`flushGo` return a dedicated `panicked` result there.
-/

/-- The three-variant state machine of `src/io.rs` (`enum IndentState`).
`WritingIndent a b` is `WritingIndent(a..b)`: the part of `required_indent`
that still needs to be written. -/
inductive IndentState : Type where
  | MidLine : IndentState
  | NeedIndent : IndentState
  | WritingIndent : Nat → Nat → IndentState
deriving DecidableEq, Repr

/-- The fields of `struct IndentWriter<W>` other than the wrapped writer
(which is threaded separately as a sink state). -/
structure IndentWriter : Type where
  indent : List Nat
  indent_level : Nat
  required_indent : List Nat
  state : IndentState
deriving DecidableEq, Repr

/-- `IndentWriter::new`: level 0, empty materialized indent, state `NeedIndent`. -/
def IndentWriter.new (indent : List Nat) : IndentWriter :=
  { indent := indent
    indent_level := 0
    required_indent := []
    state := IndentState.NeedIndent }

/-- `u16::MAX`, the saturation point of `indent_level`. -/
def u16Max : Nat := 65535

/-- `IndentWriter::inc`: `indent_level.saturating_add(1)` (a `u16`, so it
saturates at `65535`) and unconditionally append one copy of `indent` to
`required_indent`. -/
def IndentWriter.inc (w : IndentWriter) : IndentWriter :=
  { w with
    indent_level := min (w.indent_level + 1) u16Max
    required_indent := w.required_indent ++ w.indent }

/-- `IndentWriter::dec`: `indent_level.saturating_sub(1)`, then
`new_len = required_indent.len() - indent.len()` (checked `usize`
subtraction: `none` models the arithmetic-overflow panic) and
`required_indent.truncate(new_len)`. -/
def IndentWriter.dec (w : IndentWriter) : Option IndentWriter :=
  if w.indent.length ≤ w.required_indent.length then
    some { w with
      indent_level := w.indent_level - 1
      required_indent :=
        w.required_indent.take (w.required_indent.length - w.indent.length) }
  else
    none

/-- `IndentWriter::reset`: level to 0, `required_indent.clear()`.  The
`state` field is untouched. -/
def IndentWriter.reset (w : IndentWriter) : IndentWriter :=
  { w with indent_level := 0, required_indent := [] }

/-- The level/buffer invariant of the spec:
`materialized_indent.len() == level * indent_unit.len()`. -/
def levelInv (w : IndentWriter) : Prop :=
  w.required_indent.length = w.indent_level * w.indent.length

/-- The level-changing operations of the adapter (writes do not change the
level or the materialized indent). -/
inductive LevelOp : Type where
  | inc : LevelOp
  | dec : LevelOp
  | reset : LevelOp
deriving DecidableEq, Repr

/-- Apply one level operation; `none` models a panic (from `dec`). -/
def applyOp (op : LevelOp) (w : IndentWriter) : Option IndentWriter :=
  match op with
  | LevelOp.inc => some w.inc
  | LevelOp.dec => w.dec
  | LevelOp.reset => some w.reset

/-- Apply a sequence of level operations left to right. -/
def applyOps (ops : List LevelOp) (w : IndentWriter) : Option IndentWriter :=
  match ops with
  | [] => some w
  | op :: rest => (applyOp op w).bind (applyOps rest)


/-! ## The write state machine -/

/-- Rust's `Iterator::position`: index of the first element satisfying `p`. -/
def position (p : Nat → Bool) : List Nat → Option Nat
  | [] => none
  | c :: t => if p c then some 0 else (position p t).map (· + 1)

/-- `buf.iter().position(|&b| b == b'\n')`. -/
def posNl (buf : List Nat) : Option Nat := position (fun b => b == 10) buf

/-- `buf.iter().position(|&b| b != b'\n')`. -/
def posNonNl (buf : List Nat) : Option Nat := position (fun b => !(b == 10)) buf

/-- Result of one sink `write` call. -/
inductive SinkRes (σ ε : Type) : Type where
  | panicked : SinkRes σ ε
  | good : σ → Except ε Nat → SinkRes σ ε

/-- Result of `IndentWriter::write` (threading the final machine state). -/
inductive WOut (σ ε : Type) : Type where
  | panicked : WOut σ ε
  | error : ε → IndentState → σ → WOut σ ε
  | ok : Nat → IndentState → σ → WOut σ ε

/-- Termination rank of the `write` loop: `buf` is fixed within one call, so
the head byte decides which of the two loop-producing transitions can occur. -/
def wRank (buf : List Nat) (reqLen : Nat) : IndentState → Nat
  | IndentState.MidLine => if buf.head? = some 10 ∨ buf = [] then 2 else 1
  | IndentState.NeedIndent => if buf.head? = some 10 ∨ buf = [] then 1 else reqLen + 3
  | IndentState.WritingIndent a b =>
      if buf.head? = some 10 ∨ buf = [] then (b - a) + 3 else (b - a) + 2

/-- The body of `<IndentWriter as io::Write>::write` (`src/io.rs`): the
`loop`/`match` over the state, with `req` the current `required_indent`.
Slicing `required_indent[a..b]` panics when the range is invalid. -/
def writeGo {σ ε : Type} (wr : σ → List Nat → SinkRes σ ε) (req buf : List Nat) :
    IndentState → σ → WOut σ ε
  | IndentState.MidLine, s =>
    match hnl : posNl buf with
    | none =>
      match wr s buf with
      | SinkRes.panicked => WOut.panicked
      | SinkRes.good s' (Except.error e) => WOut.error e IndentState.MidLine s'
      | SinkRes.good s' (Except.ok n) => WOut.ok n IndentState.MidLine s'
    | some 0 => writeGo wr req buf IndentState.NeedIndent s
    | some (k+1) =>
      match wr s (buf.take (k+2)) with
      | SinkRes.panicked => WOut.panicked
      | SinkRes.good s' (Except.error e) => WOut.error e IndentState.MidLine s'
      | SinkRes.good s' (Except.ok n) =>
        WOut.ok n (if k+1 ≤ n then IndentState.NeedIndent else IndentState.MidLine) s'
  | IndentState.NeedIndent, s =>
    match hnn : posNonNl buf with
    | none =>
      match wr s buf with
      | SinkRes.panicked => WOut.panicked
      | SinkRes.good s' (Except.error e) => WOut.error e IndentState.NeedIndent s'
      | SinkRes.good s' (Except.ok n) => WOut.ok n IndentState.NeedIndent s'
    | some 0 => writeGo wr req buf (IndentState.WritingIndent 0 req.length) s
    | some (k+1) =>
      match wr s (buf.take (k+1)) with
      | SinkRes.panicked => WOut.panicked
      | SinkRes.good s' (Except.error e) => WOut.error e IndentState.NeedIndent s'
      | SinkRes.good s' (Except.ok n) =>
        WOut.ok n (if k+1 ≤ n then IndentState.WritingIndent 0 req.length
                   else IndentState.NeedIndent) s'
  | IndentState.WritingIndent a b, s =>
    if hab : a ≤ b ∧ b ≤ req.length then
      match wr s ((req.take b).drop a) with
      | SinkRes.panicked => WOut.panicked
      | SinkRes.good s' (Except.error e) =>
        WOut.error e (IndentState.WritingIndent a b) s'
      | SinkRes.good s' (Except.ok n) =>
        if hfull : b - a ≤ n then writeGo wr req buf IndentState.MidLine s'
        else if hzero : n = 0 then WOut.ok 0 (IndentState.WritingIndent a b) s'
        else writeGo wr req buf (IndentState.WritingIndent (a + n) b) s'
    else WOut.panicked
termination_by st _ => wRank buf req.length st
decreasing_by
  all_goals first
  | (have hnl2 := hnl
     have hh : buf.head? = some 10 := by
       cases buf with
       | nil => simp [posNl, position] at hnl
       | cons c t =>
         simp only [posNl, position] at hnl
         by_cases hc : c == 10
         · simp [show c = 10 by simpa using hc]
         · rw [if_neg (by simpa using hc)] at hnl
           obtain ⟨m, hm1, hm2⟩ := Option.map_eq_some'.mp hnl
           exact absurd hm2 (by omega)
     simp [wRank, hh])
  | (have hnn2 := hnn
     obtain ⟨c, t, rfl, hc⟩ : ∃ c t, buf = c :: t ∧ ¬ c = 10 := by
       cases buf with
       | nil => simp [posNonNl, position] at hnn
       | cons c t =>
         refine ⟨c, t, rfl, ?_⟩
         intro hc
         subst hc
         simp only [posNonNl, position, beq_self_eq_true, Bool.not_true,
           if_false, Bool.false_eq_true] at hnn
         obtain ⟨m, hm1, hm2⟩ := Option.map_eq_some'.mp hnn
         exact absurd hm2 (by omega)
     simp only [wRank, List.head?_cons, List.cons_ne_nil, or_false,
       Option.some.injEq]
     rw [if_neg hc, if_neg hc]
     omega)
  | (simp only [wRank]
     by_cases hb : buf.head? = some 10 ∨ buf = [] <;>
       simp only [if_pos, if_neg, hb, if_true, if_false] <;> omega)

/-! ## The flush state machine -/

/-- Result of one sink `flush` call. -/
inductive FlushSinkRes (σ ε : Type) : Type where
  | panicked : FlushSinkRes σ ε
  | good : σ → Except ε Unit → FlushSinkRes σ ε

/-- A flush failure: the adapter-synthesized `ErrorKind::WriteZero` or a
propagated sink error. -/
inductive FlushErr (ε : Type) : Type where
  | writeZero : FlushErr ε
  | sinkErr : ε → FlushErr ε

/-- Result of `IndentWriter::flush` (threading the final machine state). -/
inductive FOut (σ ε : Type) : Type where
  | panicked : FOut σ ε
  | error : FlushErr ε → IndentState → σ → FOut σ ε
  | ok : IndentState → σ → FOut σ ε

/-- Termination rank for the flush drain loop. -/
def flRank : IndentState → Nat
  | IndentState.WritingIndent a b => (b - a) + 1
  | _ => 0

/-- The body of `<IndentWriter as io::Write>::flush` (`src/io.rs`): drain a
pending `WritingIndent` range (`WriteZero` on a zero-length sink write),
then delegate to the sink's own flush. -/
def flushGo {σ ε : Type} (wr : σ → List Nat → SinkRes σ ε)
    (fl : σ → FlushSinkRes σ ε) (req : List Nat) : IndentState → σ → FOut σ ε
  | IndentState.WritingIndent a b, s =>
    if hab : a ≤ b ∧ b ≤ req.length then
      match wr s ((req.take b).drop a) with
      | SinkRes.panicked => FOut.panicked
      | SinkRes.good s' (Except.error e) =>
        FOut.error (FlushErr.sinkErr e) (IndentState.WritingIndent a b) s'
      | SinkRes.good s' (Except.ok n) =>
        if hfull : b - a ≤ n then flushGo wr fl req IndentState.MidLine s'
        else if hzero : n = 0 then
          FOut.error FlushErr.writeZero (IndentState.WritingIndent a b) s'
        else flushGo wr fl req (IndentState.WritingIndent (a + n) b) s'
    else FOut.panicked
  | IndentState.MidLine, s =>
    match fl s with
    | FlushSinkRes.panicked => FOut.panicked
    | FlushSinkRes.good s' (Except.error e) =>
      FOut.error (FlushErr.sinkErr e) IndentState.MidLine s'
    | FlushSinkRes.good s' (Except.ok _) => FOut.ok IndentState.MidLine s'
  | IndentState.NeedIndent, s =>
    match fl s with
    | FlushSinkRes.panicked => FOut.panicked
    | FlushSinkRes.good s' (Except.error e) =>
      FOut.error (FlushErr.sinkErr e) IndentState.NeedIndent s'
    | FlushSinkRes.good s' (Except.ok _) => FOut.ok IndentState.NeedIndent s'
termination_by st _ => flRank st
decreasing_by
  all_goals simp only [flRank]
  · omega
  · omega

/-- `<IndentWriter as io::Write>::write`, at the level of the full adapter
value: run the loop with the current `required_indent` and `state`. -/
def IndentWriter.write {σ ε : Type} (wr : σ → List Nat → SinkRes σ ε)
    (w : IndentWriter) (s : σ) (buf : List Nat) : WOut σ ε :=
  writeGo wr w.required_indent buf w.state s

/-- `<IndentWriter as io::Write>::flush`, at the level of the full adapter
value. -/
def IndentWriter.flush {σ ε : Type} (wr : σ → List Nat → SinkRes σ ε)
    (fl : σ → FlushSinkRes σ ε) (w : IndentWriter) (s : σ) : FOut σ ε :=
  flushGo wr fl w.required_indent w.state s


/-! ## Concrete sinks -/

/-- An accumulator sink that accepts every write in full. -/
def fullSink : List Nat → List Nat → SinkRes (List Nat) Empty :=
  fun s buf => SinkRes.good (s ++ buf) (Except.ok buf.length)

/-- An accumulator sink that accepts at most one byte per call. -/
def oneSink : List Nat → List Nat → SinkRes (List Nat) Empty :=
  fun s buf =>
    match buf with
    | [] => SinkRes.good s (Except.ok 0)
    | b :: _ => SinkRes.good (s ++ [b]) (Except.ok 1)

/-- A sink that accepts nothing (reports 0 accepted bytes on every write). -/
def zeroSink : List Nat → List Nat → SinkRes (List Nat) Empty :=
  fun s _ => SinkRes.good s (Except.ok 0)

/-- The flush of the accumulator sinks: a no-op success. -/
def accFlush : List Nat → FlushSinkRes (List Nat) Empty :=
  fun s => FlushSinkRes.good s (Except.ok ())

/-! ## The emission specification and drivers -/

/-- One byte of the indentation specification: when `g` (an indent is owed)
and the byte is not a newline, the materialized indent is emitted before
it; newline bytes pass through bare. -/
def emitStep (req : List Nat) (g : Bool) (c : Nat) : List Nat :=
  if c = 10 then [10] else if g then req ++ [c] else [c]

/-- After a byte, an indent is owed exactly when that byte was a newline. -/
def flagStep (c : Nat) : Bool := c == 10

/-- The ideal output of the adapter for a consumed byte list, starting from
owed-flag `g` (`true` for a fresh adapter). -/
def emitAcc (req : List Nat) : Bool → List Nat → List Nat
  | _, [] => []
  | g, c :: t => emitStep req g c ++ emitAcc req (flagStep c) t

/-- The owed-flag after consuming a byte list. -/
def flagAfter : Bool → List Nat → Bool
  | g, [] => g
  | _, c :: t => flagAfter (flagStep c) t

/-- The part of the upcoming line's indent already pushed to the sink in a
given machine state (given the owed-flag `g` of the consumed bytes). -/
def pend (req : List Nat) (g : Bool) : IndentState → List Nat
  | IndentState.MidLine => if g then req else []
  | IndentState.NeedIndent => []
  | IndentState.WritingIndent a _ => req.take a

/-- The byte stream the adapter will push to its sink from machine state
`st` when fed the future caller stream `f`. -/
def sends (req : List Nat) : IndentState → List Nat → List Nat
  | IndentState.MidLine, f => emitAcc req false f
  | IndentState.NeedIndent, f => emitAcc req true f
  | IndentState.WritingIndent a b, f => (req.take b).drop a ++ emitAcc req false f

/-- Coupling invariant between the machine state `st`, the owed-flag `g` of
the already-consumed caller bytes, and the future caller stream `f`. -/
def WInv (req : List Nat) (st : IndentState) (g : Bool) (f : List Nat) : Prop :=
  match st with
  | IndentState.MidLine => g = false ∨ (g = true ∧ ∃ c t, f = c :: t ∧ ¬ c = 10)
  | IndentState.NeedIndent => g = true ∨ (∃ t, f = 10 :: t)
  | IndentState.WritingIndent a b =>
      b = req.length ∧ a ≤ b ∧ g = true ∧ ∃ c t, f = c :: t ∧ ¬ c = 10

/-- Laws of a progressive, resumable sink: `R s H F` reads "sink state `s`
has accepted exactly the bytes `H` and will next be fed the stream `F`".
Writing a prefix of `F` succeeds, accepts at least one byte of a non-empty
buffer and at most the buffer, and never errors or panics. -/
structure SinkLaws (σ : Type) (wr : σ → List Nat → SinkRes σ Empty)
    (R : σ → List Nat → List Nat → Prop) : Prop where
  wr_cons : ∀ s H F buf, R s H F → buf ≠ [] → buf = F.take buf.length →
    ∃ n s', wr s buf = SinkRes.good s' (Except.ok n) ∧ 1 ≤ n ∧ n ≤ buf.length ∧
      R s' (H ++ F.take n) (F.drop n)
  wr_nil : ∀ s H F, R s H F → ∃ s', wr s [] = SinkRes.good s' (Except.ok 0) ∧ R s' H F

/-- Rust's `write_all` discipline on top of the adapter: retry until the
whole buffer is consumed; an `Ok(0)` from `write` aborts with `WriteZero`. -/
def writeAll {σ ε : Type} (wr : σ → List Nat → SinkRes σ ε) (req : List Nat) :
    IndentState → σ → List Nat → FOut σ ε
  | st, s, rem =>
    if hrem : rem = [] then FOut.ok st s
    else
      match writeGo wr req rem st s with
      | WOut.panicked => FOut.panicked
      | WOut.error e st' s' => FOut.error (FlushErr.sinkErr e) st' s'
      | WOut.ok n st' s' =>
        if hn : n = 0 then FOut.error FlushErr.writeZero st' s'
        else writeAll wr req st' s' (rem.drop n)
termination_by st s rem => rem.length
decreasing_by
  have h2 : 0 < rem.length := List.length_pos.mpr hrem
  rw [List.length_drop]
  omega

/-- A program against the adapter: level changes interleaved with
driven-to-completion writes. -/
inductive Cmd : Type where
  | inc : Cmd
  | dec : Cmd
  | reset : Cmd
  | write : List Nat → Cmd

/-- Result of running a program and flushing at the end. -/
inductive RunOut (σ ε : Type) : Type where
  | panicked : RunOut σ ε
  | failed : FlushErr ε → IndentWriter → σ → RunOut σ ε
  | ok : IndentWriter → σ → RunOut σ ε

/-- Run a program against an adapter: each `write buf` is driven to
completion with `write_all` semantics; at the end the adapter is flushed. -/
def runProg {σ ε : Type} (wr : σ → List Nat → SinkRes σ ε)
    (fl : σ → FlushSinkRes σ ε) : List Cmd → IndentWriter → σ → RunOut σ ε
  | [], w, s =>
    match flushGo wr fl w.required_indent w.state s with
    | FOut.panicked => RunOut.panicked
    | FOut.error e st' s' => RunOut.failed e { w with state := st' } s'
    | FOut.ok st' s' => RunOut.ok { w with state := st' } s'
  | Cmd.inc :: rest, w, s => runProg wr fl rest w.inc s
  | Cmd.dec :: rest, w, s =>
    match w.dec with
    | none => RunOut.panicked
    | some w' => runProg wr fl rest w' s
  | Cmd.reset :: rest, w, s => runProg wr fl rest w.reset s
  | Cmd.write buf :: rest, w, s =>
    match writeAll wr w.required_indent w.state s buf with
    | FOut.panicked => RunOut.panicked
    | FOut.error e st' s' => RunOut.failed e { w with state := st' } s'
    | FOut.ok st' s' => runProg wr fl rest { w with state := st' } s'

/-- An `IndentWriter` (with fixed materialized indent `reqOut`) over the
full-accepting accumulator sink, itself viewed as a sink: its state is the
outer machine state paired with the accumulator.  The error type is `Empty`
because `write` only fails when the underlying sink fails, and `fullSink`
never does. -/
def nestWr (reqOut : List Nat) :
    IndentState × List Nat → List Nat → SinkRes (IndentState × List Nat) Empty :=
  fun p buf =>
    match writeGo fullSink reqOut buf p.1 p.2 with
    | WOut.panicked => SinkRes.panicked
    | WOut.error e _ _ => e.elim
    | WOut.ok n st' s' => SinkRes.good (st', s') (Except.ok n)

/-- Feed a list of chunks through an adapter, each chunk driven to
completion with `write_all` semantics. -/
def runChunks {σ ε : Type} (wr : σ → List Nat → SinkRes σ ε) (req : List Nat) :
    List (List Nat) → IndentState → σ → FOut σ ε
  | [], st, s => FOut.ok st s
  | c :: rest, st, s =>
    match writeAll wr req st s c with
    | FOut.panicked => FOut.panicked
    | FOut.error e st' s' => FOut.error e st' s'
    | FOut.ok st' s' => runChunks wr req rest st' s'

/-- The machine state at a call boundary with everything consumed: fresh
line pending iff an indent is owed. -/
def stOf (g : Bool) : IndentState :=
  if g then IndentState.NeedIndent else IndentState.MidLine

/-- The abstraction relation of a stacked adapter-as-sink over an
accumulator: the outer machine state matches the owed-flag of the accepted
history `H`, and the accumulator holds the emission of `H` plus any
partially pushed indent. -/
def nestR (reqOut : List Nat) : IndentState × List Nat → List Nat → List Nat → Prop :=
  fun p H F =>
    WInv reqOut p.1 (flagAfter true H) F ∧
    p.2 = emitAcc reqOut true H ++ pend reqOut (flagAfter true H) p.1

/-! # Theorems -/

-- Sanity checks on the operations.
example : (IndentWriter.new [9]).inc.required_indent = [9] := by decide
example : (IndentWriter.new [9]).inc.inc.dec.map IndentWriter.required_indent
    = some [9] := by decide
example : (IndentWriter.new [9]).dec = none := by decide
example : (IndentWriter.new []).dec
    = some (IndentWriter.new []) := by decide

/-- Iterated `inc`: the buffer always grows by one copy of the unit per
call, while the level saturates at `u16Max`. -/
theorem applyOps_replicate_inc (k : Nat) (w : IndentWriter)
    (hw : w.indent_level ≤ u16Max) :
    applyOps (List.replicate k LevelOp.inc) w
      = some { indent := w.indent
               indent_level := min (w.indent_level + k) u16Max
               required_indent := w.required_indent ++ (List.replicate k w.indent).flatten
               state := w.state } := by
  induction k generalizing w with
  | zero =>
    simp [applyOps, Nat.min_eq_left hw]
  | succ k ih =>
    rw [List.replicate_succ]
    have h1 : applyOps (LevelOp.inc :: List.replicate k LevelOp.inc) w
        = applyOps (List.replicate k LevelOp.inc) w.inc := by
      simp [applyOps, applyOp]
    rw [h1, ih w.inc (min_le_right _ _)]
    simp only [IndentWriter.inc, Option.some.injEq, IndentWriter.mk.injEq,
      List.replicate_succ, List.flatten_cons, List.append_assoc, u16Max,
      true_and, and_true, and_self]
    all_goals omega

theorem posNl_zero {buf : List Nat} (h : posNl buf = some 0) :
    ∃ t, buf = 10 :: t := by
  cases buf with
  | nil => simp [posNl, position] at h
  | cons c t =>
    simp only [posNl, position] at h
    by_cases hc : c == 10
    · exact ⟨t, by rw [show c = 10 by simpa using hc]⟩
    · rw [if_neg (by simpa using hc)] at h
      obtain ⟨m, hm1, hm2⟩ := Option.map_eq_some'.mp h
      exact absurd hm2 (by omega)

theorem posNonNl_zero {buf : List Nat} (h : posNonNl buf = some 0) :
    ∃ c t, buf = c :: t ∧ ¬ c = 10 := by
  cases buf with
  | nil => simp [posNonNl, position] at h
  | cons c t =>
    refine ⟨c, t, rfl, ?_⟩
    intro hc
    subst hc
    simp only [posNonNl, position, beq_self_eq_true, Bool.not_true,
      if_false, Bool.false_eq_true] at h
    obtain ⟨m, hm1, hm2⟩ := Option.map_eq_some'.mp h
    exact absurd hm2 (by omega)

/-! ### Step lemmas for `writeGo` -/

section WriteGoSteps

variable {σ ε : Type} (wr : σ → List Nat → SinkRes σ ε) (req buf : List Nat) (s : σ)

theorem writeGo_midLine_zero (h : posNl buf = some 0) :
    writeGo wr req buf IndentState.MidLine s
      = writeGo wr req buf IndentState.NeedIndent s := by
  rw [writeGo]
  split
  next heq => rw [h] at heq; cases heq
  next heq => rfl
  next k heq => rw [h] at heq; cases heq

theorem writeGo_midLine_none_ok (h : posNl buf = none) {s' : σ} {n : Nat}
    (hw : wr s buf = SinkRes.good s' (Except.ok n)) :
    writeGo wr req buf IndentState.MidLine s = WOut.ok n IndentState.MidLine s' := by
  rw [writeGo]
  split
  next heq => rw [hw]
  next heq => rw [h] at heq; cases heq
  next k heq => rw [h] at heq; cases heq

theorem writeGo_midLine_none_err (h : posNl buf = none) {s' : σ} {e : ε}
    (hw : wr s buf = SinkRes.good s' (Except.error e)) :
    writeGo wr req buf IndentState.MidLine s = WOut.error e IndentState.MidLine s' := by
  rw [writeGo]
  split
  next heq => rw [hw]
  next heq => rw [h] at heq; cases heq
  next k heq => rw [h] at heq; cases heq

theorem writeGo_midLine_none_panic (h : posNl buf = none)
    (hw : wr s buf = SinkRes.panicked) :
    writeGo wr req buf IndentState.MidLine s = WOut.panicked := by
  rw [writeGo]
  split
  next heq => rw [hw]
  next heq => rw [h] at heq; cases heq
  next k heq => rw [h] at heq; cases heq

theorem writeGo_midLine_succ_ok {k : Nat} (h : posNl buf = some (k+1)) {s' : σ} {n : Nat}
    (hw : wr s (buf.take (k+2)) = SinkRes.good s' (Except.ok n)) :
    writeGo wr req buf IndentState.MidLine s
      = WOut.ok n (if k+1 ≤ n then IndentState.NeedIndent else IndentState.MidLine) s' := by
  rw [writeGo]
  split
  next heq => rw [h] at heq; cases heq
  next heq => rw [h] at heq; cases heq
  next k' heq =>
    rw [h] at heq
    obtain rfl : k = k' := by injection heq with h2; omega
    rw [hw]

theorem writeGo_midLine_succ_err {k : Nat} (h : posNl buf = some (k+1)) {s' : σ} {e : ε}
    (hw : wr s (buf.take (k+2)) = SinkRes.good s' (Except.error e)) :
    writeGo wr req buf IndentState.MidLine s = WOut.error e IndentState.MidLine s' := by
  rw [writeGo]
  split
  next heq => rw [h] at heq; cases heq
  next heq => rw [h] at heq; cases heq
  next k' heq =>
    rw [h] at heq
    obtain rfl : k = k' := by injection heq with h2; omega
    rw [hw]

theorem writeGo_midLine_succ_panic {k : Nat} (h : posNl buf = some (k+1))
    (hw : wr s (buf.take (k+2)) = SinkRes.panicked) :
    writeGo wr req buf IndentState.MidLine s = WOut.panicked := by
  rw [writeGo]
  split
  next heq => rw [h] at heq; cases heq
  next heq => rw [h] at heq; cases heq
  next k' heq =>
    rw [h] at heq
    obtain rfl : k = k' := by injection heq with h2; omega
    rw [hw]

theorem writeGo_needIndent_zero (h : posNonNl buf = some 0) :
    writeGo wr req buf IndentState.NeedIndent s
      = writeGo wr req buf (IndentState.WritingIndent 0 req.length) s := by
  rw [writeGo]
  split
  next heq => rw [h] at heq; cases heq
  next heq => rfl
  next k heq => rw [h] at heq; cases heq

theorem writeGo_needIndent_none_ok (h : posNonNl buf = none) {s' : σ} {n : Nat}
    (hw : wr s buf = SinkRes.good s' (Except.ok n)) :
    writeGo wr req buf IndentState.NeedIndent s = WOut.ok n IndentState.NeedIndent s' := by
  rw [writeGo]
  split
  next heq => rw [hw]
  next heq => rw [h] at heq; cases heq
  next k heq => rw [h] at heq; cases heq

theorem writeGo_needIndent_none_err (h : posNonNl buf = none) {s' : σ} {e : ε}
    (hw : wr s buf = SinkRes.good s' (Except.error e)) :
    writeGo wr req buf IndentState.NeedIndent s = WOut.error e IndentState.NeedIndent s' := by
  rw [writeGo]
  split
  next heq => rw [hw]
  next heq => rw [h] at heq; cases heq
  next k heq => rw [h] at heq; cases heq

theorem writeGo_needIndent_none_panic (h : posNonNl buf = none)
    (hw : wr s buf = SinkRes.panicked) :
    writeGo wr req buf IndentState.NeedIndent s = WOut.panicked := by
  rw [writeGo]
  split
  next heq => rw [hw]
  next heq => rw [h] at heq; cases heq
  next k heq => rw [h] at heq; cases heq

theorem writeGo_needIndent_succ_ok {k : Nat} (h : posNonNl buf = some (k+1)) {s' : σ} {n : Nat}
    (hw : wr s (buf.take (k+1)) = SinkRes.good s' (Except.ok n)) :
    writeGo wr req buf IndentState.NeedIndent s
      = WOut.ok n (if k+1 ≤ n then IndentState.WritingIndent 0 req.length
                   else IndentState.NeedIndent) s' := by
  rw [writeGo]
  split
  next heq => rw [h] at heq; cases heq
  next heq => rw [h] at heq; cases heq
  next k' heq =>
    rw [h] at heq
    obtain rfl : k = k' := by injection heq with h2; omega
    rw [hw]

theorem writeGo_needIndent_succ_err {k : Nat} (h : posNonNl buf = some (k+1)) {s' : σ} {e : ε}
    (hw : wr s (buf.take (k+1)) = SinkRes.good s' (Except.error e)) :
    writeGo wr req buf IndentState.NeedIndent s = WOut.error e IndentState.NeedIndent s' := by
  rw [writeGo]
  split
  next heq => rw [h] at heq; cases heq
  next heq => rw [h] at heq; cases heq
  next k' heq =>
    rw [h] at heq
    obtain rfl : k = k' := by injection heq with h2; omega
    rw [hw]

theorem writeGo_needIndent_succ_panic {k : Nat} (h : posNonNl buf = some (k+1))
    (hw : wr s (buf.take (k+1)) = SinkRes.panicked) :
    writeGo wr req buf IndentState.NeedIndent s = WOut.panicked := by
  rw [writeGo]
  split
  next heq => rw [h] at heq; cases heq
  next heq => rw [h] at heq; cases heq
  next k' heq =>
    rw [h] at heq
    obtain rfl : k = k' := by injection heq with h2; omega
    rw [hw]

theorem writeGo_wi_invalid {a b : Nat} (h : ¬ (a ≤ b ∧ b ≤ req.length)) :
    writeGo wr req buf (IndentState.WritingIndent a b) s = WOut.panicked := by
  conv_lhs => rw [writeGo]
  rw [dif_neg h]

theorem writeGo_wi_err {a b : Nat} (hab : a ≤ b ∧ b ≤ req.length) {s' : σ} {e : ε}
    (hw : wr s ((req.take b).drop a) = SinkRes.good s' (Except.error e)) :
    writeGo wr req buf (IndentState.WritingIndent a b) s
      = WOut.error e (IndentState.WritingIndent a b) s' := by
  conv_lhs => rw [writeGo]
  rw [dif_pos hab]
  simp only [hw]

theorem writeGo_wi_panic {a b : Nat} (hab : a ≤ b ∧ b ≤ req.length)
    (hw : wr s ((req.take b).drop a) = SinkRes.panicked) :
    writeGo wr req buf (IndentState.WritingIndent a b) s = WOut.panicked := by
  conv_lhs => rw [writeGo]
  rw [dif_pos hab]
  simp only [hw]

theorem writeGo_wi_full {a b : Nat} (hab : a ≤ b ∧ b ≤ req.length) {s' : σ} {n : Nat}
    (hw : wr s ((req.take b).drop a) = SinkRes.good s' (Except.ok n))
    (hn : b - a ≤ n) :
    writeGo wr req buf (IndentState.WritingIndent a b) s
      = writeGo wr req buf IndentState.MidLine s' := by
  conv_lhs => rw [writeGo]
  rw [dif_pos hab]
  simp only [hw]
  rw [dif_pos hn]

theorem writeGo_wi_zero {a b : Nat} (hab : a ≤ b ∧ b ≤ req.length) {s' : σ}
    (hw : wr s ((req.take b).drop a) = SinkRes.good s' (Except.ok 0))
    (hn : ¬ b - a ≤ 0) :
    writeGo wr req buf (IndentState.WritingIndent a b) s
      = WOut.ok 0 (IndentState.WritingIndent a b) s' := by
  conv_lhs => rw [writeGo]
  rw [dif_pos hab]
  simp only [hw]
  rw [dif_neg hn, dif_pos trivial]

theorem writeGo_wi_part {a b : Nat} (hab : a ≤ b ∧ b ≤ req.length) {s' : σ} {n : Nat}
    (hw : wr s ((req.take b).drop a) = SinkRes.good s' (Except.ok n))
    (hn : ¬ b - a ≤ n) (hz : ¬ n = 0) :
    writeGo wr req buf (IndentState.WritingIndent a b) s
      = writeGo wr req buf (IndentState.WritingIndent (a + n) b) s' := by
  conv_lhs => rw [writeGo]
  rw [dif_pos hab]
  simp only [hw]
  rw [dif_neg hn, dif_neg hz]

end WriteGoSteps

/-! ### Step lemmas for `flushGo` -/

section FlushGoSteps

variable {σ ε : Type} (wr : σ → List Nat → SinkRes σ ε)
  (fl : σ → FlushSinkRes σ ε) (req : List Nat) (s : σ)

theorem flushGo_midLine_ok {s' : σ} (hf : fl s = FlushSinkRes.good s' (Except.ok ())) :
    flushGo wr fl req IndentState.MidLine s = FOut.ok IndentState.MidLine s' := by
  rw [flushGo]
  simp only [hf]

theorem flushGo_needIndent_ok {s' : σ} (hf : fl s = FlushSinkRes.good s' (Except.ok ())) :
    flushGo wr fl req IndentState.NeedIndent s = FOut.ok IndentState.NeedIndent s' := by
  rw [flushGo]
  simp only [hf]

theorem flushGo_midLine_err {s' : σ} {e : ε}
    (hf : fl s = FlushSinkRes.good s' (Except.error e)) :
    flushGo wr fl req IndentState.MidLine s
      = FOut.error (FlushErr.sinkErr e) IndentState.MidLine s' := by
  rw [flushGo]
  simp only [hf]

theorem flushGo_needIndent_err {s' : σ} {e : ε}
    (hf : fl s = FlushSinkRes.good s' (Except.error e)) :
    flushGo wr fl req IndentState.NeedIndent s
      = FOut.error (FlushErr.sinkErr e) IndentState.NeedIndent s' := by
  rw [flushGo]
  simp only [hf]

theorem flushGo_wi_invalid {a b : Nat} (h : ¬ (a ≤ b ∧ b ≤ req.length)) :
    flushGo wr fl req (IndentState.WritingIndent a b) s = FOut.panicked := by
  rw [flushGo, dif_neg h]

theorem flushGo_wi_err {a b : Nat} (hab : a ≤ b ∧ b ≤ req.length) {s' : σ} {e : ε}
    (hw : wr s ((req.take b).drop a) = SinkRes.good s' (Except.error e)) :
    flushGo wr fl req (IndentState.WritingIndent a b) s
      = FOut.error (FlushErr.sinkErr e) (IndentState.WritingIndent a b) s' := by
  rw [flushGo, dif_pos hab]
  simp only [hw]

theorem flushGo_wi_full {a b : Nat} (hab : a ≤ b ∧ b ≤ req.length) {s' : σ} {n : Nat}
    (hw : wr s ((req.take b).drop a) = SinkRes.good s' (Except.ok n))
    (hn : b - a ≤ n) :
    flushGo wr fl req (IndentState.WritingIndent a b) s
      = flushGo wr fl req IndentState.MidLine s' := by
  rw [flushGo, dif_pos hab]
  simp only [hw]
  rw [dif_pos hn]

theorem flushGo_wi_zero {a b : Nat} (hab : a ≤ b ∧ b ≤ req.length) {s' : σ}
    (hw : wr s ((req.take b).drop a) = SinkRes.good s' (Except.ok 0))
    (hn : ¬ b - a ≤ 0) :
    flushGo wr fl req (IndentState.WritingIndent a b) s
      = FOut.error FlushErr.writeZero (IndentState.WritingIndent a b) s' := by
  rw [flushGo, dif_pos hab]
  simp only [hw]
  rw [dif_neg hn, dif_pos trivial]

theorem flushGo_wi_part {a b : Nat} (hab : a ≤ b ∧ b ≤ req.length) {s' : σ} {n : Nat}
    (hw : wr s ((req.take b).drop a) = SinkRes.good s' (Except.ok n))
    (hn : ¬ b - a ≤ n) (hz : ¬ n = 0) :
    flushGo wr fl req (IndentState.WritingIndent a b) s
      = flushGo wr fl req (IndentState.WritingIndent (a + n) b) s' := by
  rw [flushGo, dif_pos hab]
  simp only [hw]
  rw [dif_neg hn, dif_neg hz]

end FlushGoSteps

/-! ## C1: `dec` at level 0 -/

/-- C1 (code_bug evidence): calling `dec` on a freshly constructed writer
(level 0, non-empty indent unit `[9]`) hits the checked `usize` subtraction
`required_indent.len() - indent.len()` = `0 - 1`, an arithmetic underflow
(panic with overflow checks enabled) — not the no-op the spec promises.
The model returns `none` for the underflow. -/
theorem c1_dec_at_level_zero_underflows :
    (IndentWriter.new [9]).indent_level = 0 ∧ (IndentWriter.new [9]).dec = none := by
  decide

/-! ## C2: the level/buffer invariant -/

theorem flatten_replicate_singleton (k : Nat) (a : Nat) :
    (List.replicate k [a]).flatten = List.replicate k a := by
  induction k with
  | zero => rfl
  | succ k ih => simp [List.replicate_succ, List.flatten_cons, ih]

/-- C2 counterexample: after 65536 `inc` operations with a one-byte indent
unit, the buffer holds 65536 bytes but the `u16` level has saturated at
65535, so `materialized_indent.len() = level * indent_unit.len()` fails. -/
theorem c2_counterexample :
    applyOps (List.replicate 65536 LevelOp.inc) (IndentWriter.new [9])
      = some { indent := [9], indent_level := u16Max,
               required_indent := List.replicate 65536 9,
               state := IndentState.NeedIndent }
    ∧ ¬ levelInv { indent := [9], indent_level := u16Max,
                   required_indent := List.replicate 65536 9,
                   state := IndentState.NeedIndent } := by
  constructor
  · rw [applyOps_replicate_inc 65536 _ (by decide)]
    show (some { indent := [9], indent_level := min (0 + 65536) u16Max,
                 required_indent := [] ++ (List.replicate 65536 ([9]:List Nat)).flatten,
                 state := IndentState.NeedIndent } : Option IndentWriter) = _
    rw [flatten_replicate_singleton, List.nil_append, Nat.min_eq_right (by decide)]
  · intro hInv
    rw [levelInv] at hInv
    have h2 : (List.replicate 65536 (9:Nat)).length = 65535 * 1 := hInv
    rw [List.length_replicate] at h2
    omega

/-- C2 (amended): the invariant `required_indent.len = level * indent.len`
holds after construction and is preserved by every level operation that
completes, provided each `inc` happens at a level strictly below the `u16`
saturation point 65535. -/
theorem c2_invariant_preserved :
    (∀ u : List Nat, levelInv (IndentWriter.new u)) ∧
    (∀ (w : IndentWriter) (op : LevelOp) (w' : IndentWriter),
      levelInv w → (op = LevelOp.inc → w.indent_level < u16Max) →
      applyOp op w = some w' → levelInv w') := by
  constructor
  · intro u
    simp [levelInv, IndentWriter.new]
  · rintro w op w' hInv hCap hApp
    cases op with
    | inc =>
      obtain rfl : w.inc = w' := by
        simpa [applyOp] using hApp
      simp only [levelInv, IndentWriter.inc, List.length_append]
      rw [Nat.min_eq_left (by exact hCap rfl), Nat.succ_mul]
      rw [levelInv] at hInv
      rw [hInv]
    | dec =>
      simp only [applyOp, IndentWriter.dec] at hApp
      split at hApp
      case isTrue hle =>
        obtain rfl : _ = w' := by injection hApp
        simp only [levelInv, List.length_take]
        rw [Nat.min_eq_left (Nat.sub_le _ _)]
        rw [levelInv] at hInv
        rw [hInv, Nat.sub_mul, one_mul]
      case isFalse h => exact absurd hApp (by simp)
    | reset =>
      obtain rfl : w.reset = w' := by
        simpa [applyOp] using hApp
      simp [levelInv, IndentWriter.reset]

/-- Witness for `c2_invariant_preserved` at a concrete input. -/
theorem c2_invariant_preserved_witness :
    levelInv ((IndentWriter.new [9]).inc) :=
  c2_invariant_preserved.2 (IndentWriter.new [9]) LevelOp.inc
    ((IndentWriter.new [9]).inc)
    (c2_invariant_preserved.1 [9]) (fun _ => by decide) rfl


/-! ### Position evaluation lemmas -/

theorem posNl_cons_10 (t : List Nat) : posNl (10 :: t) = some 0 := by
  simp [posNl, position]

theorem posNonNl_cons_non10 {c : Nat} (t : List Nat) (hc : ¬ c = 10) :
    posNonNl (c :: t) = some 0 := by
  simp [posNonNl, position, hc]

/-! ### `write` and `flush` never panic on valid ranges -/

/-- If the sink never panics and a `WritingIndent` state's range lies inside
`required_indent`, then `write` cannot panic. -/
theorem writeGo_no_panic {σ ε : Type} (wr : σ → List Nat → SinkRes σ ε)
    (req buf : List Nat) (st : IndentState) (s : σ)
    (hs : ∀ s b, wr s b ≠ SinkRes.panicked)
    (hwi : ∀ a b, st = IndentState.WritingIndent a b → a ≤ b ∧ b ≤ req.length) :
    writeGo wr req buf st s ≠ WOut.panicked := by
  induction st, s using writeGo.induct wr req buf
  case case1 s hnl hx => exact absurd hx (hs _ _)
  case case2 s hnl s' e hx =>
    rw [writeGo_midLine_none_err wr req buf s hnl hx]
    simp
  case case3 s hnl s' n hx =>
    rw [writeGo_midLine_none_ok wr req buf s hnl hx]
    simp
  case case4 s hnl ih =>
    rw [writeGo_midLine_zero wr req buf s hnl]
    exact ih (fun a b h => nomatch h)
  case case5 s k hnl hx => exact absurd hx (hs _ _)
  case case6 s k hnl s' e hx =>
    rw [writeGo_midLine_succ_err wr req buf s hnl hx]
    simp
  case case7 s k hnl s' n hx =>
    rw [writeGo_midLine_succ_ok wr req buf s hnl hx]
    simp
  case case8 s hnn hx => exact absurd hx (hs _ _)
  case case9 s hnn s' e hx =>
    rw [writeGo_needIndent_none_err wr req buf s hnn hx]
    simp
  case case10 s hnn s' n hx =>
    rw [writeGo_needIndent_none_ok wr req buf s hnn hx]
    simp
  case case11 s hnn ih =>
    rw [writeGo_needIndent_zero wr req buf s hnn]
    exact ih (fun a b h => by cases h; exact ⟨Nat.zero_le _, Nat.le_refl _⟩)
  case case12 s k hnn hx => exact absurd hx (hs _ _)
  case case13 s k hnn s' e hx =>
    rw [writeGo_needIndent_succ_err wr req buf s hnn hx]
    simp
  case case14 s k hnn s' n hx =>
    rw [writeGo_needIndent_succ_ok wr req buf s hnn hx]
    simp
  case case15 a b s hab hx => exact absurd hx (hs _ _)
  case case16 a b s hab s' e hx =>
    rw [writeGo_wi_err wr req buf s hab hx]
    simp
  case case17 a b s hab s' n hx hfull ih =>
    rw [writeGo_wi_full wr req buf s hab hx hfull]
    exact ih (fun a' b' h => nomatch h)
  case case18 a b s hab s' hx hfull =>
    rw [writeGo_wi_zero wr req buf s hab hx hfull]
    simp
  case case19 a b s hab s' n hx hfull hzero ih =>
    rw [writeGo_wi_part wr req buf s hab hx hfull hzero]
    refine ih (fun a' b' h => ?_)
    cases h
    exact ⟨by omega, hab.2⟩
  case case20 a b s hnab => exact absurd (hwi a b rfl) hnab

/-- If the sink's write and flush never panic and a `WritingIndent` range
lies inside `required_indent`, then `flush` cannot panic. -/
theorem flushGo_no_panic {σ ε : Type} (wr : σ → List Nat → SinkRes σ ε)
    (fl : σ → FlushSinkRes σ ε) (req : List Nat) (st : IndentState) (s : σ)
    (hs : ∀ s b, wr s b ≠ SinkRes.panicked)
    (hf : ∀ s, fl s ≠ FlushSinkRes.panicked)
    (hwi : ∀ a b, st = IndentState.WritingIndent a b → a ≤ b ∧ b ≤ req.length) :
    flushGo wr fl req st s ≠ FOut.panicked := by
  induction st, s using flushGo.induct wr fl req
  case case1 a b s hab hx => exact absurd hx (hs _ _)
  case case2 a b s hab s' e hx =>
    rw [flushGo_wi_err wr fl req s hab hx]
    simp
  case case3 a b s hab s' n hx hfull ih =>
    rw [flushGo_wi_full wr fl req s hab hx hfull]
    exact ih (fun a' b' h => nomatch h)
  case case4 a b s hab s' hx hfull =>
    rw [flushGo_wi_zero wr fl req s hab hx hfull]
    simp
  case case5 a b s hab s' n hx hfull hzero ih =>
    rw [flushGo_wi_part wr fl req s hab hx hfull hzero]
    refine ih (fun a' b' h => ?_)
    cases h
    exact ⟨by omega, hab.2⟩
  case case6 a b s hnab => exact absurd (hwi a b rfl) hnab
  case case7 s hx => exact absurd hx (hf _)
  case case8 s s' e hx =>
    rw [flushGo_midLine_err wr fl req s hx]
    simp
  case case9 s0 s1 u hx =>
    cases u
    rw [flushGo_midLine_ok wr fl req s0 hx]
    simp
  case case10 s hx => exact absurd hx (hf _)
  case case11 s s' e hx =>
    rw [flushGo_needIndent_err wr fl req s hx]
    simp
  case case12 s0 s1 u hx =>
    cases u
    rw [flushGo_needIndent_ok wr fl req s0 hx]
    simp

/-! ## C3: zero-accepted while writing an indent -/

/-- C3: whenever a `write` call is in the `WritingIndent` state with a
non-empty remaining range and the sink accepts zero bytes of the remaining
indent, the whole call stops immediately with `Ok(0)` — both when the call
starts in `WritingIndent` and when it reaches it within the same call from
`NeedIndent` (buffer starting with a non-newline at a positive indent). -/
theorem c3_zero_accept_stops_call :
    (∀ {σ ε : Type} (wr : σ → List Nat → SinkRes σ ε) (req buf : List Nat)
       (a b : Nat) (s s' : σ),
       a < b → b ≤ req.length →
       wr s ((req.take b).drop a) = SinkRes.good s' (Except.ok 0) →
       writeGo wr req buf (IndentState.WritingIndent a b) s
         = WOut.ok 0 (IndentState.WritingIndent a b) s')
    ∧ (∀ {σ ε : Type} (wr : σ → List Nat → SinkRes σ ε) (req : List Nat)
         (c : Nat) (t : List Nat) (s s' : σ),
       ¬ c = 10 → 0 < req.length →
       wr s req = SinkRes.good s' (Except.ok 0) →
       writeGo wr req (c :: t) IndentState.NeedIndent s
         = WOut.ok 0 (IndentState.WritingIndent 0 req.length) s') := by
  constructor
  · intro σ ε wr req buf a b s s' hab hb hw
    exact writeGo_wi_zero wr req buf s ⟨Nat.le_of_lt hab, hb⟩ hw (by omega)
  · intro σ ε wr req c t s s' hc hr hw
    rw [writeGo_needIndent_zero wr req (c :: t) s (posNonNl_cons_non10 t hc)]
    refine writeGo_wi_zero wr req (c :: t) s ⟨Nat.zero_le _, Nat.le_refl _⟩ ?_ (by omega)
    rw [List.take_length, List.drop_zero]
    exact hw

/-- Witness for `c3_zero_accept_stops_call` at concrete inputs. -/
theorem c3_zero_accept_stops_call_witness :
    writeGo zeroSink [9] [97] (IndentState.WritingIndent 0 1) []
      = WOut.ok 0 (IndentState.WritingIndent 0 1) []
    ∧ writeGo zeroSink [9] [97] IndentState.NeedIndent []
      = WOut.ok 0 (IndentState.WritingIndent 0 1) [] :=
  ⟨c3_zero_accept_stops_call.1 zeroSink [9] [97] 0 1 [] []
     (by decide) (by decide) rfl,
   c3_zero_accept_stops_call.2 zeroSink [9] 97 [] [] []
     (by decide) (by decide) rfl⟩

/-! ## C4: `MidLine` with a newline at positive offset -/

/-- C4 counterexample: in `MidLine` with `buf = "a\n"` (newline at offset
`k = 1`) and a sink that accepts only 1 byte (so the newline itself is NOT
accepted), the code still switches to `NeedIndent`, because the guard is
`n >= len` (`len = 1`, the newline's offset), not `n = len + 1`.  The claim's
"switches iff the sink accepted the newline byte itself (all k+1 bytes)"
is false here: it predicts `MidLine`. -/
theorem c4_counterexample :
    writeGo oneSink [] [97, 10] IndentState.MidLine []
      = WOut.ok 1 IndentState.NeedIndent [97]
    ∧ ¬ (IndentState.NeedIndent = IndentState.NeedIndent ↔ 1 + 1 ≤ 1) := by
  constructor
  · rw [writeGo_midLine_succ_ok oneSink [] [97, 10] []
      (show posNl [97, 10] = some (0 + 1) by rfl)
      (show oneSink [] ([97, 10].take 2) = SinkRes.good [97] (Except.ok 1) by rfl)]
    norm_num
  · decide

/-- C4 (amended): in `MidLine` with the first newline at offset `j > 0`,
`write` forwards `buf[..j+1]` to the sink and returns the sink's count `n`
directly; the state switches to `NeedIndent` if and only if the sink
accepted at least the `j` bytes before the newline (`n ≥ j`) — the newline
byte itself is the only byte of the forwarded slice allowed to be missing. -/
theorem c4_midline_forward_amended {σ ε : Type}
    (wr : σ → List Nat → SinkRes σ ε) (req buf : List Nat) (s s' : σ)
    (j n : Nat) (hj : posNl buf = some j) (hj0 : 0 < j)
    (hw : wr s (buf.take (j + 1)) = SinkRes.good s' (Except.ok n)) :
    ∃ st', writeGo wr req buf IndentState.MidLine s = WOut.ok n st' s'
      ∧ (st' = IndentState.NeedIndent ↔ j ≤ n) := by
  obtain ⟨k, rfl⟩ : ∃ k, j = k + 1 := ⟨j - 1, by omega⟩
  rw [writeGo_midLine_succ_ok wr req buf s hj hw]
  by_cases hn : k + 1 ≤ n
  · rw [if_pos hn]
    exact ⟨IndentState.NeedIndent, rfl, by simp [hn]⟩
  · rw [if_neg hn]
    exact ⟨IndentState.MidLine, rfl, by simp [hn]⟩

/-- Witness for `c4_midline_forward_amended` at a concrete input. -/
theorem c4_midline_forward_amended_witness :
    ∃ st', writeGo oneSink [] [97, 10] IndentState.MidLine []
      = WOut.ok 1 st' [97] ∧ (st' = IndentState.NeedIndent ↔ 1 ≤ 1) :=
  c4_midline_forward_amended oneSink [] [97, 10] [] [97] 1 1
    rfl (by decide) rfl

/-! ## C10: unguarded slicing after `reset` during `WritingIndent` -/

/-- C10: `reset` during an in-progress `WritingIndent 0 1` shrinks
`required_indent` below the range, so the unguarded slice panics on the next
`write` or `flush`; and conversely `write`/`flush` cannot panic (with a
non-panicking sink) whenever every `WritingIndent` range lies inside the
current buffer. -/
theorem c10_reset_mid_indent_panics :
    (IndentWriter.write fullSink
        { (IndentWriter.new [9]).inc.reset with state := IndentState.WritingIndent 0 1 }
        [] [97] = WOut.panicked
     ∧ IndentWriter.flush fullSink accFlush
        { (IndentWriter.new [9]).inc.reset with state := IndentState.WritingIndent 0 1 }
        [] = FOut.panicked)
    ∧ (∀ {σ ε : Type} (wr : σ → List Nat → SinkRes σ ε) (req buf : List Nat)
         (st : IndentState) (s : σ),
       (∀ s b, wr s b ≠ SinkRes.panicked) →
       (∀ a b, st = IndentState.WritingIndent a b → a ≤ b ∧ b ≤ req.length) →
       writeGo wr req buf st s ≠ WOut.panicked)
    ∧ (∀ {σ ε : Type} (wr : σ → List Nat → SinkRes σ ε)
         (fl : σ → FlushSinkRes σ ε) (req : List Nat) (st : IndentState) (s : σ),
       (∀ s b, wr s b ≠ SinkRes.panicked) →
       (∀ s, fl s ≠ FlushSinkRes.panicked) →
       (∀ a b, st = IndentState.WritingIndent a b → a ≤ b ∧ b ≤ req.length) →
       flushGo wr fl req st s ≠ FOut.panicked) := by
  refine ⟨⟨?_, ?_⟩, ?_, ?_⟩
  · exact writeGo_wi_invalid fullSink [] [97] [] (by decide)
  · exact flushGo_wi_invalid fullSink accFlush [] [] (by decide)
  · intro σ ε wr req buf st s hs hwi
    exact writeGo_no_panic wr req buf st s hs hwi
  · intro σ ε wr fl req st s hs hf hwi
    exact flushGo_no_panic wr fl req st s hs hf hwi

/-- Witness for `c10_reset_mid_indent_panics` at a concrete input. -/
theorem c10_reset_mid_indent_panics_witness :
    writeGo fullSink [9] [97] IndentState.NeedIndent [] ≠ WOut.panicked :=
  c10_reset_mid_indent_panics.2.1 fullSink [9] [97] IndentState.NeedIndent []
    (fun s b => by simp [fullSink]) (fun a b h => nomatch h)

/-! ## C9: the returned count only counts caller bytes -/

/-- C9: for any sink whose reported counts never exceed the buffer it was
given, every `Ok(n)` returned by `write` satisfies `n ≤ buf.len()`: the
indent bytes written during `WritingIndent` (whose counts the sink also
reports) are never included in the returned count. -/
theorem c9_count_bounded_by_caller_buf {σ ε : Type}
    (wr : σ → List Nat → SinkRes σ ε)
    (hwr : ∀ (s : σ) (b : List Nat) (s' : σ) (m : Nat),
      wr s b = SinkRes.good s' (Except.ok m) → m ≤ b.length)
    (req buf : List Nat) (st : IndentState) (s : σ) (n : Nat)
    (st' : IndentState) (s' : σ)
    (h : writeGo wr req buf st s = WOut.ok n st' s') :
    n ≤ buf.length := by
  induction st, s using writeGo.induct wr req buf
  case case1 s0 hnl hx =>
    rw [writeGo_midLine_none_panic wr req buf s0 hnl hx] at h
    exact nomatch h
  case case2 s0 hnl s1 e hx =>
    rw [writeGo_midLine_none_err wr req buf s0 hnl hx] at h
    exact nomatch h
  case case3 s0 hnl s1 m hx =>
    rw [writeGo_midLine_none_ok wr req buf s0 hnl hx] at h
    cases h
    exact hwr _ _ _ _ hx
  case case4 s0 hnl ih =>
    rw [writeGo_midLine_zero wr req buf s0 hnl] at h
    exact ih h
  case case5 s0 k hnl hx =>
    rw [writeGo_midLine_succ_panic wr req buf s0 hnl hx] at h
    exact nomatch h
  case case6 s0 k hnl s1 e hx =>
    rw [writeGo_midLine_succ_err wr req buf s0 hnl hx] at h
    exact nomatch h
  case case7 s0 k hnl s1 m hx =>
    rw [writeGo_midLine_succ_ok wr req buf s0 hnl hx] at h
    cases h
    exact Nat.le_trans (hwr _ _ _ _ hx) (by rw [List.length_take]; omega)
  case case8 s0 hnn hx =>
    rw [writeGo_needIndent_none_panic wr req buf s0 hnn hx] at h
    exact nomatch h
  case case9 s0 hnn s1 e hx =>
    rw [writeGo_needIndent_none_err wr req buf s0 hnn hx] at h
    exact nomatch h
  case case10 s0 hnn s1 m hx =>
    rw [writeGo_needIndent_none_ok wr req buf s0 hnn hx] at h
    cases h
    exact hwr _ _ _ _ hx
  case case11 s0 hnn ih =>
    rw [writeGo_needIndent_zero wr req buf s0 hnn] at h
    exact ih h
  case case12 s0 k hnn hx =>
    rw [writeGo_needIndent_succ_panic wr req buf s0 hnn hx] at h
    exact nomatch h
  case case13 s0 k hnn s1 e hx =>
    rw [writeGo_needIndent_succ_err wr req buf s0 hnn hx] at h
    exact nomatch h
  case case14 s0 k hnn s1 m hx =>
    rw [writeGo_needIndent_succ_ok wr req buf s0 hnn hx] at h
    cases h
    exact Nat.le_trans (hwr _ _ _ _ hx) (by rw [List.length_take]; omega)
  case case15 a b s0 hab hx =>
    rw [writeGo_wi_panic wr req buf s0 hab hx] at h
    exact nomatch h
  case case16 a b s0 hab s1 e hx =>
    rw [writeGo_wi_err wr req buf s0 hab hx] at h
    exact nomatch h
  case case17 a b s0 hab s1 m hx hfull ih =>
    rw [writeGo_wi_full wr req buf s0 hab hx hfull] at h
    exact ih h
  case case18 a b s0 hab s1 hx hfull =>
    rw [writeGo_wi_zero wr req buf s0 hab hx hfull] at h
    cases h
    exact Nat.zero_le _
  case case19 a b s0 hab s1 m hx hfull hzero ih =>
    rw [writeGo_wi_part wr req buf s0 hab hx hfull hzero] at h
    exact ih h
  case case20 a b s0 hnab =>
    rw [writeGo_wi_invalid wr req buf s0 hnab] at h
    exact nomatch h

/-- Witness for `c9_count_bounded_by_caller_buf` at a concrete input. -/
theorem c9_count_bounded_by_caller_buf_witness : (1 : Nat) ≤ [97, 10].length :=
  c9_count_bounded_by_caller_buf oneSink
    (fun s b s' m hm => by
      cases b with
      | nil => cases hm; exact Nat.le_refl 0
      | cons x t => cases hm; simp [oneSink])
    [] [97, 10] IndentState.MidLine [] 1 IndentState.NeedIndent [97]
    (by rw [writeGo_midLine_succ_ok oneSink [] [97, 10] []
          (show posNl [97, 10] = some (0 + 1) by rfl)
          (show oneSink [] ([97, 10].take 2) = SinkRes.good [97] (Except.ok 1) by rfl)]
        norm_num)

/-! ## C7: blank lines are never indented -/

theorem posNonNl_all10 {buf : List Nat} (h : ∀ x ∈ buf, x = 10) :
    posNonNl buf = none := by
  induction buf with
  | nil => rfl
  | cons c t ih =>
    have hc : c = 10 := h c (by simp)
    subst hc
    simp only [posNonNl, position] at *
    rw [if_neg (by simp)]
    rw [ih (fun x hx => h x (by simp [hx]))]
    rfl

theorem posNonNl_replicate_run (k : Nat) {c : Nat} (hc : ¬ c = 10)
    (rest : List Nat) :
    posNonNl (List.replicate k 10 ++ c :: rest) = some k := by
  induction k with
  | zero => simpa using posNonNl_cons_non10 rest hc
  | succ k ih =>
    rw [List.replicate_succ, List.cons_append]
    simp only [posNonNl, position] at *
    rw [if_neg (by simp), ih]
    rfl

/-- C7: in `NeedIndent`, runs of newline bytes are forwarded to the sink
verbatim with no indent inserted before them: an all-newline buffer is
passed through unchanged (state stays `NeedIndent`), and a buffer with `m`
leading newlines before a non-newline byte forwards exactly those `m`
newlines, deferring the indent (state `WritingIndent` over the full range)
to just before the next non-empty line's first byte. -/
theorem c7_blank_lines_never_indented :
    (∀ (req buf s : List Nat), (∀ x ∈ buf, x = 10) →
      writeGo fullSink req buf IndentState.NeedIndent s
        = WOut.ok buf.length IndentState.NeedIndent (s ++ buf))
    ∧ (∀ (req : List Nat) (k : Nat) (c : Nat) (rest s : List Nat), ¬ c = 10 →
      writeGo fullSink req (List.replicate (k+1) 10 ++ c :: rest)
          IndentState.NeedIndent s
        = WOut.ok (k+1) (IndentState.WritingIndent 0 req.length)
            (s ++ List.replicate (k+1) 10)) := by
  constructor
  · intro req buf s hall
    exact writeGo_needIndent_none_ok fullSink req buf s (posNonNl_all10 hall) rfl
  · intro req k c rest s hc
    have hp : (List.replicate (k+1) 10 ++ c :: rest).take (k+1)
        = List.replicate (k+1) (10:Nat) := by
      rw [List.take_append_of_le_length (by simp)]
      simp [List.take_replicate]
    have hw : fullSink s ((List.replicate (k+1) 10 ++ c :: rest).take (k+1))
        = SinkRes.good (s ++ List.replicate (k+1) 10) (Except.ok (k+1)) := by
      rw [hp]
      simp [fullSink]
    rw [writeGo_needIndent_succ_ok fullSink req _ s
      (posNonNl_replicate_run (k+1) hc rest) hw]
    rw [if_pos (Nat.le_refl _)]

/-- Witness for `c7_blank_lines_never_indented` at concrete inputs. -/
theorem c7_blank_lines_never_indented_witness :
    writeGo fullSink [9] [10, 10] IndentState.NeedIndent []
      = WOut.ok 2 IndentState.NeedIndent [10, 10]
    ∧ writeGo fullSink [9] [10, 97] IndentState.NeedIndent []
      = WOut.ok 1 (IndentState.WritingIndent 0 1) [10] := by
  constructor
  · exact c7_blank_lines_never_indented.1 [9] [10, 10] [] (by decide)
  · have h := c7_blank_lines_never_indented.2 [9] 0 97 [] [] (by decide)
    simpa using h

/-! ## C6: flush drains the pending indent -/

/-- Draining a pending `WritingIndent a b` through a one-byte-at-a-time sink:
`flush` retries until the whole remaining slice is written, then ends in
`MidLine`. -/
theorem flushGo_oneSink_drain (req : List Nat) (b : Nat) (hb : b ≤ req.length) :
    ∀ (d a : Nat) (s : List Nat), a ≤ b → b - a = d →
    flushGo oneSink accFlush req (IndentState.WritingIndent a b) s
      = FOut.ok IndentState.MidLine (s ++ (req.take b).drop a) := by
  intro d
  induction d with
  | zero =>
    intro a s hab hd
    have hslice : (req.take b).drop a = [] := by
      apply List.drop_eq_nil_of_le
      rw [List.length_take]
      omega
    have hw : oneSink s ((req.take b).drop a) = SinkRes.good s (Except.ok 0) := by
      rw [hslice]
      rfl
    rw [flushGo_wi_full oneSink accFlush req s ⟨hab, hb⟩ hw (by omega)]
    rw [flushGo_midLine_ok oneSink accFlush req s rfl]
    rw [hslice, List.append_nil]
  | succ d ih =>
    intro a s hab hd
    have ha : a < b := by omega
    have halen : a < (req.take b).length := by
      rw [List.length_take]
      omega
    have hslice : (req.take b).drop a
        = (req.take b)[a] :: (req.take b).drop (a+1) :=
      List.drop_eq_getElem_cons halen
    have hw : oneSink s ((req.take b).drop a)
        = SinkRes.good (s ++ [(req.take b)[a]]) (Except.ok 1) := by
      rw [hslice]
      rfl
    by_cases hone : b - a ≤ 1
    · rw [flushGo_wi_full oneSink accFlush req s ⟨Nat.le_of_lt ha, hb⟩ hw hone]
      rw [flushGo_midLine_ok oneSink accFlush req _ rfl]
      have hnil : (req.take b).drop (a+1) = [] := by
        apply List.drop_eq_nil_of_le
        rw [List.length_take]
        omega
      rw [hslice, hnil]
    · rw [flushGo_wi_part oneSink accFlush req s ⟨Nat.le_of_lt ha, hb⟩ hw
        (by omega) (by omega)]
      rw [ih (a+1) (s ++ [(req.take b)[a]]) (by omega) (by omega)]
      rw [hslice, List.append_assoc]
      rfl

/-- C6: (i) when not mid-indent, `flush` delegates directly to the sink's
flush; (ii) mid-indent, it drains the remaining slice to the sink, retrying
on partial (one-byte) accepts, and then delegates; (iii) a zero-accepted
write during the drain is escalated to the `WriteZero` error. -/
theorem c6_flush_drains_then_delegates :
    (∀ {σ ε : Type} (wr : σ → List Nat → SinkRes σ ε)
       (fl : σ → FlushSinkRes σ ε) (req : List Nat) (st : IndentState) (s : σ),
       st = IndentState.MidLine ∨ st = IndentState.NeedIndent →
       flushGo wr fl req st s
         = match fl s with
           | FlushSinkRes.panicked => FOut.panicked
           | FlushSinkRes.good s' (Except.error e) =>
             FOut.error (FlushErr.sinkErr e) st s'
           | FlushSinkRes.good s' (Except.ok _) => FOut.ok st s')
    ∧ (∀ (req : List Nat) (a b : Nat) (s : List Nat), a ≤ b → b ≤ req.length →
       flushGo oneSink accFlush req (IndentState.WritingIndent a b) s
         = FOut.ok IndentState.MidLine (s ++ (req.take b).drop a))
    ∧ (∀ (req : List Nat) (a b : Nat) (s : List Nat), a < b → b ≤ req.length →
       flushGo zeroSink accFlush req (IndentState.WritingIndent a b) s
         = FOut.error FlushErr.writeZero (IndentState.WritingIndent a b) s) := by
  refine ⟨?_, ?_, ?_⟩
  · intro σ ε wr fl req st s h
    rcases h with rfl | rfl <;> rw [flushGo]
  · intro req a b s hab hb
    exact flushGo_oneSink_drain req b hb (b - a) a s hab rfl
  · intro req a b s hab hb
    exact flushGo_wi_zero zeroSink accFlush req s ⟨Nat.le_of_lt hab, hb⟩ rfl
      (by omega)

/-- Witness for `c6_flush_drains_then_delegates` at concrete inputs. -/
theorem c6_flush_drains_then_delegates_witness :
    flushGo oneSink accFlush [9] IndentState.MidLine []
      = FOut.ok IndentState.MidLine []
    ∧ flushGo oneSink accFlush [9, 9] (IndentState.WritingIndent 0 2) []
      = FOut.ok IndentState.MidLine [9, 9]
    ∧ flushGo zeroSink accFlush [9] (IndentState.WritingIndent 0 1) []
      = FOut.error FlushErr.writeZero (IndentState.WritingIndent 0 1) [] := by
  refine ⟨?_, ?_, ?_⟩
  · exact c6_flush_drains_then_delegates.1 oneSink accFlush [9]
      IndentState.MidLine [] (Or.inl rfl)
  · have h := c6_flush_drains_then_delegates.2.1 [9, 9] 0 2 []
      (by decide) (by decide)
    simpa using h
  · exact c6_flush_drains_then_delegates.2.2 [9] 0 1 [] (by decide) (by decide)

/-! ## Emission lemmas -/

theorem emitAcc_append (req : List Nat) (g : Bool) (x y : List Nat) :
    emitAcc req g (x ++ y) = emitAcc req g x ++ emitAcc req (flagAfter g x) y := by
  induction x generalizing g with
  | nil => simp [emitAcc, flagAfter]
  | cons c t ih => simp [emitAcc, flagAfter, ih, List.append_assoc]

theorem flagAfter_append (g : Bool) (x y : List Nat) :
    flagAfter g (x ++ y) = flagAfter (flagAfter g x) y := by
  induction x generalizing g with
  | nil => simp [flagAfter]
  | cons c t ih => simp [flagAfter, ih]

theorem flagAfter_indep {l : List Nat} (hl : l ≠ []) (g g' : Bool) :
    flagAfter g l = flagAfter g' l := by
  cases l with
  | nil => exact absurd rfl hl
  | cons c t => simp [flagAfter]

theorem emitAcc_no10 (req : List Nat) {l : List Nat} (h : ∀ x ∈ l, ¬ x = 10) :
    emitAcc req false l = l := by
  induction l with
  | nil => rfl
  | cons c t ih =>
    have hc : ¬ c = 10 := h c (by simp)
    simp only [emitAcc, emitStep, flagStep, if_neg hc, if_neg (by simp : ¬ false = true)]
    rw [show (c == 10) = false by simpa using hc]
    rw [ih (fun x hx => h x (by simp [hx]))]
    rfl

theorem emitAcc_all10 (req : List Nat) {l : List Nat} (h : ∀ x ∈ l, x = 10) :
    ∀ g, emitAcc req g l = l := by
  induction l with
  | nil => intro g; rfl
  | cons c t ih =>
    intro g
    have hc : c = 10 := h c (by simp)
    subst hc
    simp only [emitAcc, emitStep, flagStep, if_pos rfl]
    rw [show ((10:Nat) == 10) = true by simp]
    rw [ih (fun x hx => h x (by simp [hx])) true]
    rfl

theorem flagAfter_no10 {l : List Nat} (hl : l ≠ []) (h : ∀ x ∈ l, ¬ x = 10)
    (g : Bool) : flagAfter g l = false := by
  induction l generalizing g with
  | nil => exact absurd rfl hl
  | cons c t ih =>
    have hc : ¬ c = 10 := h c (by simp)
    cases t with
    | nil =>
      simp [flagAfter, flagStep]
      simpa using hc
    | cons d u =>
      rw [show flagAfter g (c :: d :: u) = flagAfter (flagStep c) (d :: u) from rfl]
      exact ih (by simp) (fun x hx => h x (by simp [hx])) _

theorem flagAfter_all10 {l : List Nat} (hl : l ≠ []) (h : ∀ x ∈ l, x = 10)
    (g : Bool) : flagAfter g l = true := by
  induction l generalizing g with
  | nil => exact absurd rfl hl
  | cons c t ih =>
    have hc : c = 10 := h c (by simp)
    cases t with
    | nil => simp [flagAfter, flagStep, hc]
    | cons d u =>
      rw [show flagAfter g (c :: d :: u) = flagAfter (flagStep c) (d :: u) from rfl]
      exact ih (by simp) (fun x hx => h x (by simp [hx])) _

theorem emitAcc_cons10 (req : List Nat) (g : Bool) (t : List Nat) :
    emitAcc req g (10 :: t) = 10 :: emitAcc req true t := by
  simp [emitAcc, emitStep, flagStep]

theorem emitAcc_cons_non10_false (req : List Nat) {c : Nat} (hc : ¬ c = 10)
    (t : List Nat) : emitAcc req false (c :: t) = c :: emitAcc req false t := by
  simp only [emitAcc, emitStep, flagStep, if_neg hc]
  rw [show (c == 10) = false by simpa using hc]
  rfl

theorem emitAcc_cons_non10_true (req : List Nat) {c : Nat} (hc : ¬ c = 10)
    (t : List Nat) :
    emitAcc req true (c :: t) = req ++ c :: emitAcc req false t := by
  simp only [emitAcc, emitStep, flagStep, if_neg hc]
  rw [show (c == 10) = false by simpa using hc]
  simp [List.append_assoc]

/-! ## Position decomposition lemmas -/

theorem posNl_none {buf : List Nat} (h : posNl buf = none) : ∀ x ∈ buf, ¬ x = 10 := by
  induction buf with
  | nil => simp
  | cons c t ih =>
    simp only [posNl, position] at h
    by_cases hc : c == 10
    · rw [if_pos hc] at h
      cases h
    · rw [if_neg hc] at h
      intro x hx
      rcases (by simpa using hx : x = c ∨ x ∈ t) with rfl | hx2
      · simpa using hc
      · exact ih (by simpa using h) x hx2

theorem posNonNl_none {buf : List Nat} (h : posNonNl buf = none) :
    ∀ x ∈ buf, x = 10 := by
  induction buf with
  | nil => simp
  | cons c t ih =>
    simp only [posNonNl, position] at h
    by_cases hc : c == 10
    · rw [if_neg (by simpa using hc)] at h
      intro x hx
      rcases (by simpa using hx : x = c ∨ x ∈ t) with rfl | hx2
      · simpa using hc
      · exact ih (by simpa using h) x hx2
    · rw [if_pos (by simpa using hc)] at h
      cases h

theorem posNl_some_decomp :
    ∀ {j : Nat} {buf : List Nat}, posNl buf = some j →
    ∃ pre rest, buf = pre ++ 10 :: rest ∧ pre.length = j ∧ ∀ x ∈ pre, ¬ x = 10 := by
  intro j buf
  induction buf generalizing j with
  | nil => intro h; cases h
  | cons c t ih =>
    intro h
    simp only [posNl, position] at h
    by_cases hc : c == 10
    · rw [if_pos hc] at h
      obtain rfl : 0 = j := by injection h
      exact ⟨[], t, by simp [show c = 10 by simpa using hc], rfl, by simp⟩
    · rw [if_neg hc] at h
      obtain ⟨m, hm1, hm2⟩ := Option.map_eq_some'.mp h
      obtain ⟨pre, rest, ht, hlen, hpre⟩ := ih hm1
      refine ⟨c :: pre, rest, by simp [ht], by simp [hlen]; omega, ?_⟩
      intro x hx
      rcases (by simpa using hx : x = c ∨ x ∈ pre) with rfl | hx2
      · simpa using hc
      · exact hpre x hx2

theorem posNonNl_some_decomp :
    ∀ {j : Nat} {buf : List Nat}, posNonNl buf = some j →
    ∃ c rest, buf = List.replicate j 10 ++ c :: rest ∧ ¬ c = 10 := by
  intro j buf
  induction buf generalizing j with
  | nil => intro h; cases h
  | cons c t ih =>
    intro h
    simp only [posNonNl, position] at h
    by_cases hc : c == 10
    · rw [if_neg (by simpa using hc)] at h
      obtain ⟨m, hm1, hm2⟩ := Option.map_eq_some'.mp h
      obtain ⟨d, rest, ht, hd⟩ := ih hm1
      refine ⟨d, rest, ?_, hd⟩
      obtain rfl : j = m + 1 := by omega
      rw [List.replicate_succ, List.cons_append, ← ht,
        show c = 10 by simpa using hc]
    · rw [if_pos (by simpa using hc)] at h
      obtain rfl : 0 = j := by injection h
      exact ⟨c, t, by simp, by simpa using hc⟩

/-! ## `sends` rewrites and slice lemmas -/

theorem sends_ni_head10 (req : List Nat) (t : List Nat) :
    sends req IndentState.NeedIndent (10 :: t)
      = sends req IndentState.MidLine (10 :: t) := by
  simp [sends, emitAcc_cons10]

theorem sends_ni_non10 (req : List Nat) {c : Nat} (hc : ¬ c = 10) (t : List Nat) :
    sends req IndentState.NeedIndent (c :: t)
      = sends req (IndentState.WritingIndent 0 req.length) (c :: t) := by
  simp only [sends, List.take_length, List.drop_zero]
  rw [emitAcc_cons_non10_true req hc, emitAcc_cons_non10_false req hc]

theorem slice_length {req : List Nat} {a b : Nat} (hb : b ≤ req.length) :
    ((req.take b).drop a).length = b - a := by
  rw [List.length_drop, List.length_take]
  omega

theorem slice_join {req : List Nat} {a b : Nat} (ha : a ≤ b) :
    req.take a ++ (req.take b).drop a = req.take b := by
  have h1 : req.take a = (req.take b).take a := by
    rw [List.take_take, Nat.min_eq_left ha]
  rw [h1, List.take_append_drop]

theorem slice_take_join {req : List Nat} {a b n : Nat} (h : a + n ≤ b) :
    req.take a ++ ((req.take b).drop a).take n = req.take (a + n) := by
  have h1 : req.take a = (req.take b).take a := by
    rw [List.take_take, Nat.min_eq_left (by omega)]
  have h2 : req.take (a + n) = (req.take b).take (a + n) := by
    rw [List.take_take, Nat.min_eq_left h]
  rw [h1, h2, List.take_add]

theorem slice_drop (req : List Nat) (a b n : Nat) :
    ((req.take b).drop a).drop n = (req.take b).drop (a + n) :=
  List.drop_drop n a (req.take b)

/-! ## Single-call simulation of `write` against the emission spec -/

theorem pend_ml_emit (req : List Nat) {l : List Nat} (hl : l ≠ [])
    (h10 : ∀ x ∈ l, ¬ x = 10) (g : Bool) :
    pend req g IndentState.MidLine ++ l = emitAcc req g l := by
  cases g with
  | false => simp [pend, emitAcc_no10 req h10]
  | true =>
    cases l with
    | nil => exact absurd rfl hl
    | cons c t =>
      have hc : ¬ c = 10 := h10 c (by simp)
      simp only [pend, if_true]
      rw [emitAcc_cons_non10_true req hc,
        emitAcc_no10 req (fun x hx => h10 x (by simp [hx]))]

theorem sim_ml_none {σ : Type} {wr : σ → List Nat → SinkRes σ Empty}
    {R : σ → List Nat → List Nat → Prop} (laws : SinkLaws σ wr R)
    (req buf : List Nat) (g : Bool) (fut : List Nat) (s : σ) (E : List Nat)
    (hnl : posNl buf = none)
    (hW : WInv req IndentState.MidLine g (buf ++ fut))
    (hR : R s (E ++ pend req g IndentState.MidLine)
        (sends req IndentState.MidLine (buf ++ fut))) :
    ∃ n st' s',
      writeGo wr req buf IndentState.MidLine s = WOut.ok n st' s' ∧
      n ≤ buf.length ∧ (buf ≠ [] → 1 ≤ n) ∧
      WInv req st' (flagAfter g (buf.take n)) (buf.drop n ++ fut) ∧
      R s' (E ++ emitAcc req g (buf.take n)
             ++ pend req (flagAfter g (buf.take n)) st')
        (sends req st' (buf.drop n ++ fut)) := by
  have hno10 : ∀ x ∈ buf, ¬ x = 10 := posNl_none hnl
  by_cases hbuf : buf = []
  · subst hbuf
    obtain ⟨s2, hwr2, hR2⟩ := laws.wr_nil s _ _ hR
    refine ⟨0, IndentState.MidLine, s2,
      writeGo_midLine_none_ok wr req [] s hnl hwr2, by simp, by simp, ?_, ?_⟩
    · simpa using hW
    · simpa [emitAcc] using hR2
  · have hsend : sends req IndentState.MidLine (buf ++ fut)
        = buf ++ emitAcc req (flagAfter false buf) fut := by
      simp only [sends]
      rw [emitAcc_append, emitAcc_no10 req hno10]
    have hpre : buf = (sends req IndentState.MidLine (buf ++ fut)).take buf.length := by
      rw [hsend, List.take_left]
    obtain ⟨n0, s2, hwr2, h1, hlen, hR2⟩ := laws.wr_cons s _ _ buf hR hbuf hpre
    have hbl : 0 < buf.length := List.length_pos.mpr hbuf
    have htknn : buf.take n0 ≠ [] := by
      intro hcon
      have h2 := congrArg List.length hcon
      rw [List.length_take] at h2
      simp only [List.length_nil] at h2
      omega
    have htk10 : ∀ x ∈ buf.take n0, ¬ x = 10 :=
      fun x hx => hno10 x (List.mem_of_mem_take hx)
    have hflag : flagAfter g (buf.take n0) = false := flagAfter_no10 htknn htk10 g
    refine ⟨n0, IndentState.MidLine, s2,
      writeGo_midLine_none_ok wr req buf s hnl hwr2, hlen, fun _ => h1, ?_, ?_⟩
    · rw [hflag]
      exact Or.inl rfl
    · rw [hflag]
      have e1 : (sends req IndentState.MidLine (buf ++ fut)).take n0 = buf.take n0 := by
        rw [hsend, List.take_append_of_le_length hlen]
      have e2 : (sends req IndentState.MidLine (buf ++ fut)).drop n0
          = sends req IndentState.MidLine (buf.drop n0 ++ fut) := by
        rw [hsend, List.drop_append_of_le_length hlen]
        simp only [sends]
        rw [emitAcc_append,
          emitAcc_no10 req (fun x hx => hno10 x (List.mem_of_mem_drop hx))]
        have hfl : flagAfter false (buf.take n0) = false :=
          flagAfter_no10 htknn htk10 false
        have hfd : flagAfter false buf = flagAfter false (buf.drop n0) := by
          conv_lhs => rw [← List.take_append_drop n0 buf]
          rw [flagAfter_append, hfl]
        rw [hfd]
      rw [e1, e2] at hR2
      have e3 : (E ++ pend req g IndentState.MidLine) ++ buf.take n0
          = E ++ emitAcc req g (buf.take n0) ++ pend req false IndentState.MidLine := by
        rw [List.append_assoc, pend_ml_emit req htknn htk10 g]
        simp [pend]
      rw [e3] at hR2
      exact hR2

theorem sim_ni_none {σ : Type} {wr : σ → List Nat → SinkRes σ Empty}
    {R : σ → List Nat → List Nat → Prop} (laws : SinkLaws σ wr R)
    (req buf : List Nat) (g : Bool) (fut : List Nat) (s : σ) (E : List Nat)
    (hnn : posNonNl buf = none)
    (hW : WInv req IndentState.NeedIndent g (buf ++ fut))
    (hR : R s (E ++ pend req g IndentState.NeedIndent)
        (sends req IndentState.NeedIndent (buf ++ fut))) :
    ∃ n st' s',
      writeGo wr req buf IndentState.NeedIndent s = WOut.ok n st' s' ∧
      n ≤ buf.length ∧ (buf ≠ [] → 1 ≤ n) ∧
      WInv req st' (flagAfter g (buf.take n)) (buf.drop n ++ fut) ∧
      R s' (E ++ emitAcc req g (buf.take n)
             ++ pend req (flagAfter g (buf.take n)) st')
        (sends req st' (buf.drop n ++ fut)) := by
  have hall10 : ∀ x ∈ buf, x = 10 := posNonNl_none hnn
  by_cases hbuf : buf = []
  · subst hbuf
    obtain ⟨s2, hwr2, hR2⟩ := laws.wr_nil s _ _ hR
    refine ⟨0, IndentState.NeedIndent, s2,
      writeGo_needIndent_none_ok wr req [] s hnn hwr2, by simp, by simp, ?_, ?_⟩
    · simpa using hW
    · simpa [emitAcc] using hR2
  · have hsend : sends req IndentState.NeedIndent (buf ++ fut)
        = buf ++ emitAcc req (flagAfter true buf) fut := by
      simp only [sends]
      rw [emitAcc_append, emitAcc_all10 req hall10 true]
    have hpre : buf
        = (sends req IndentState.NeedIndent (buf ++ fut)).take buf.length := by
      rw [hsend, List.take_left]
    obtain ⟨n0, s2, hwr2, h1, hlen, hR2⟩ := laws.wr_cons s _ _ buf hR hbuf hpre
    have hbl : 0 < buf.length := List.length_pos.mpr hbuf
    have htknn : buf.take n0 ≠ [] := by
      intro hcon
      have h2 := congrArg List.length hcon
      rw [List.length_take] at h2
      simp only [List.length_nil] at h2
      omega
    have htk10 : ∀ x ∈ buf.take n0, x = 10 :=
      fun x hx => hall10 x (List.mem_of_mem_take hx)
    have hflag : flagAfter g (buf.take n0) = true := flagAfter_all10 htknn htk10 g
    refine ⟨n0, IndentState.NeedIndent, s2,
      writeGo_needIndent_none_ok wr req buf s hnn hwr2, hlen, fun _ => h1, ?_, ?_⟩
    · rw [hflag]
      exact Or.inl rfl
    · rw [hflag]
      have e1 : (sends req IndentState.NeedIndent (buf ++ fut)).take n0
          = buf.take n0 := by
        rw [hsend, List.take_append_of_le_length hlen]
      have e2 : (sends req IndentState.NeedIndent (buf ++ fut)).drop n0
          = sends req IndentState.NeedIndent (buf.drop n0 ++ fut) := by
        rw [hsend, List.drop_append_of_le_length hlen]
        simp only [sends]
        rw [emitAcc_append,
          emitAcc_all10 req (fun x hx => hall10 x (List.mem_of_mem_drop hx)) true]
        have hfl : flagAfter true (buf.take n0) = true :=
          flagAfter_all10 htknn htk10 true
        have hfd : flagAfter true buf = flagAfter true (buf.drop n0) := by
          conv_lhs => rw [← List.take_append_drop n0 buf]
          rw [flagAfter_append, hfl]
        rw [hfd]
      rw [e1, e2] at hR2
      have e3 : (E ++ pend req g IndentState.NeedIndent) ++ buf.take n0
          = E ++ emitAcc req g (buf.take n0)
              ++ pend req true IndentState.NeedIndent := by
        simp only [pend, List.append_nil]
        rw [emitAcc_all10 req htk10 g]
      rw [e3] at hR2
      exact hR2

theorem flagAfter_no10_weak (req : List Nat) {p : List Nat}
    (hp : ∀ x ∈ p, ¬ x = 10) : flagAfter false p = false := by
  cases hp2 : p with
  | nil => rfl
  | cons c t =>
    rw [← hp2]
    exact flagAfter_no10 (by simp [hp2]) hp false

theorem emit_ml_line (req : List Nat) {p : List Nat}
    (hp : ∀ x ∈ p, ¬ x = 10) (z : List Nat) :
    emitAcc req false (p ++ 10 :: z) = (p ++ [10]) ++ emitAcc req true z := by
  rw [emitAcc_append, emitAcc_no10 req hp, flagAfter_no10_weak req hp,
    emitAcc_cons10]
  simp [List.append_assoc]

theorem emitAcc_single10 (req : List Nat) (y : Bool) : emitAcc req y [10] = [10] := by
  simp [emitAcc, emitStep]

theorem sim_ml_succ {σ : Type} {wr : σ → List Nat → SinkRes σ Empty}
    {R : σ → List Nat → List Nat → Prop} (laws : SinkLaws σ wr R)
    (req buf : List Nat) (g : Bool) (fut : List Nat) (s : σ) (E : List Nat)
    {k : Nat} (hnl : posNl buf = some (k+1))
    (hW : WInv req IndentState.MidLine g (buf ++ fut))
    (hR : R s (E ++ pend req g IndentState.MidLine)
        (sends req IndentState.MidLine (buf ++ fut))) :
    ∃ n st' s',
      writeGo wr req buf IndentState.MidLine s = WOut.ok n st' s' ∧
      n ≤ buf.length ∧ (buf ≠ [] → 1 ≤ n) ∧
      WInv req st' (flagAfter g (buf.take n)) (buf.drop n ++ fut) ∧
      R s' (E ++ emitAcc req g (buf.take n)
             ++ pend req (flagAfter g (buf.take n)) st')
        (sends req st' (buf.drop n ++ fut)) := by
  obtain ⟨pre, rest, hbuf, hplen, hpre10⟩ := posNl_some_decomp hnl
  subst hbuf
  have hprenn : pre ≠ [] := by
    intro hcon
    rw [hcon] at hplen
    simp at hplen
  have hpiece : (pre ++ 10 :: rest).take (k+2) = pre ++ [10] := by
    rw [show k+2 = pre.length + 1 by omega, List.take_append]
    rfl
  have hplen2 : (pre ++ [10]).length = k + 2 := by
    simp [hplen]
  have hsend : sends req IndentState.MidLine ((pre ++ 10 :: rest) ++ fut)
      = (pre ++ [10]) ++ emitAcc req true (rest ++ fut) := by
    show emitAcc req false ((pre ++ 10 :: rest) ++ fut) = _
    rw [List.append_assoc]
    exact emit_ml_line req hpre10 (rest ++ fut)
  have hpre2 : pre ++ [10]
      = (sends req IndentState.MidLine ((pre ++ 10 :: rest) ++ fut)).take
          ((pre ++ [10]).length) := by
    rw [hsend, List.take_left]
  obtain ⟨n0, s2, hwr2, h1, hlen, hR2⟩ :=
    laws.wr_cons s _ _ (pre ++ [10]) hR (by simp) hpre2
  rw [hplen2] at hlen
  have hwr3 : wr s ((pre ++ 10 :: rest).take (k+2))
      = SinkRes.good s2 (Except.ok n0) := by
    rw [hpiece]
    exact hwr2
  have hstep := writeGo_midLine_succ_ok wr req (pre ++ 10 :: rest) s hnl hwr3
  have hFtake : (sends req IndentState.MidLine ((pre ++ 10 :: rest) ++ fut)).take n0
      = (pre ++ [10]).take n0 := by
    rw [hsend, List.take_append_of_le_length (by omega)]
  have hFdrop : (sends req IndentState.MidLine ((pre ++ 10 :: rest) ++ fut)).drop n0
      = (pre ++ [10]).drop n0 ++ emitAcc req true (rest ++ fut) := by
    rw [hsend, List.drop_append_of_le_length (by omega)]
  rw [hFtake, hFdrop] at hR2
  have hblen : n0 ≤ (pre ++ 10 :: rest).length := by
    simp [hplen]
    omega
  by_cases hcase : k + 1 ≤ n0
  · rw [if_pos hcase] at hstep
    by_cases hc2 : n0 = k + 2
    · subst hc2
      have hdr : (pre ++ 10 :: rest).drop (k+2) = rest := by
        rw [show k+2 = pre.length + 1 by omega, List.drop_append]
        rfl
      have hflag : flagAfter g ((pre ++ 10 :: rest).take (k+2)) = true := by
        rw [hpiece, flagAfter_append]
        rfl
      have htk2 : (pre ++ [10]).take (k+2) = pre ++ [10] := by
        rw [← hplen2, List.take_length]
      have hdr2 : (pre ++ [10]).drop (k+2) = [] := by
        rw [← hplen2, List.drop_length]
      rw [htk2, hdr2] at hR2
      refine ⟨k+2, IndentState.NeedIndent, s2, hstep, by omega,
        fun _ => by omega, ?_, ?_⟩
      · rw [hflag]
        exact Or.inl rfl
      · rw [hflag, hpiece, hdr]
        have e3 : (E ++ pend req g IndentState.MidLine) ++ (pre ++ [10])
            = E ++ emitAcc req g (pre ++ [10])
                ++ pend req true IndentState.NeedIndent := by
          have e4 : emitAcc req g (pre ++ [10])
              = emitAcc req g pre ++ [10] := by
            rw [emitAcc_append, emitAcc_single10]
          rw [e4]
          rw [show pend req true IndentState.NeedIndent = [] from rfl,
            List.append_nil]
          rw [← pend_ml_emit req hprenn hpre10 g]
          simp [List.append_assoc]
        rw [e3] at hR2
        simpa [sends] using hR2
    · have hn0 : n0 = k + 1 := by omega
      subst hn0
      have htk : (pre ++ 10 :: rest).take (k+1) = pre := by
        rw [List.take_append_of_le_length (by omega)]
        rw [show k+1 = pre.length by omega, List.take_length]
      have hdr : (pre ++ 10 :: rest).drop (k+1) = 10 :: rest := by
        rw [List.drop_append_of_le_length (by omega)]
        rw [show k+1 = pre.length by omega, List.drop_length]
        rfl
      have htkp : (pre ++ [10]).take (k+1) = pre := by
        rw [List.take_append_of_le_length (by omega)]
        rw [show k+1 = pre.length by omega, List.take_length]
      have hdrp : (pre ++ [10]).drop (k+1) = [10] := by
        rw [List.drop_append_of_le_length (by omega)]
        rw [show k+1 = pre.length by omega, List.drop_length]
        rfl
      rw [htkp, hdrp] at hR2
      have hflag : flagAfter g ((pre ++ 10 :: rest).take (k+1)) = false := by
        rw [htk]
        exact flagAfter_no10 hprenn hpre10 g
      refine ⟨k+1, IndentState.NeedIndent, s2, hstep, by omega,
        fun _ => by omega, ?_, ?_⟩
      · rw [hflag, hdr]
        exact Or.inr ⟨rest ++ fut, by simp⟩
      · rw [hflag, htk, hdr]
        have e3 : (E ++ pend req g IndentState.MidLine) ++ pre
            = E ++ emitAcc req g pre
                ++ pend req false IndentState.NeedIndent := by
          rw [show pend req false IndentState.NeedIndent = [] from rfl,
            List.append_nil]
          rw [← pend_ml_emit req hprenn hpre10 g]
          simp [List.append_assoc]
        rw [e3] at hR2
        have e5 : sends req IndentState.NeedIndent ((10 :: rest) ++ fut)
            = [10] ++ emitAcc req true (rest ++ fut) := by
          simp only [sends, List.cons_append]
          rw [emitAcc_cons10]
          rfl
        rw [e5]
        exact hR2
  · rw [if_neg hcase] at hstep
    have hn0k : n0 ≤ k + 1 := by omega
    have htk : (pre ++ 10 :: rest).take n0 = pre.take n0 :=
      List.take_append_of_le_length (by omega)
    have hdr : (pre ++ 10 :: rest).drop n0 = pre.drop n0 ++ 10 :: rest :=
      List.drop_append_of_le_length (by omega)
    have htkp : (pre ++ [10]).take n0 = pre.take n0 :=
      List.take_append_of_le_length (by omega)
    have hdrp : (pre ++ [10]).drop n0 = pre.drop n0 ++ [10] :=
      List.drop_append_of_le_length (by omega)
    rw [htkp, hdrp] at hR2
    have htknn : pre.take n0 ≠ [] := by
      intro hcon
      have h2 := congrArg List.length hcon
      rw [List.length_take] at h2
      simp only [List.length_nil] at h2
      omega
    have htk10 : ∀ x ∈ pre.take n0, ¬ x = 10 :=
      fun x hx => hpre10 x (List.mem_of_mem_take hx)
    have hflag : flagAfter g ((pre ++ 10 :: rest).take n0) = false := by
      rw [htk]
      exact flagAfter_no10 htknn htk10 g
    refine ⟨n0, IndentState.MidLine, s2, hstep, by omega, fun _ => h1, ?_, ?_⟩
    · rw [hflag]
      exact Or.inl rfl
    · rw [hflag, htk, hdr]
      have e3 : (E ++ pend req g IndentState.MidLine) ++ pre.take n0
          = E ++ emitAcc req g (pre.take n0)
              ++ pend req false IndentState.MidLine := by
        rw [show pend req false IndentState.MidLine = [] from rfl,
          List.append_nil]
        rw [← pend_ml_emit req htknn htk10 g]
        simp [List.append_assoc]
      rw [e3] at hR2
      have e5 : sends req IndentState.MidLine ((pre.drop n0 ++ 10 :: rest) ++ fut)
          = (pre.drop n0 ++ [10]) ++ emitAcc req true (rest ++ fut) := by
        show emitAcc req false ((pre.drop n0 ++ 10 :: rest) ++ fut) = _
        rw [List.append_assoc]
        exact emit_ml_line req (fun x hx => hpre10 x (List.mem_of_mem_drop hx))
          (rest ++ fut)
      rw [e5]
      exact hR2

theorem emit_ni_run (req : List Nat) (m : Nat) (z : List Nat) :
    emitAcc req true (List.replicate m 10 ++ z)
      = List.replicate m 10 ++ emitAcc req true z := by
  rw [emitAcc_append,
    emitAcc_all10 req (fun x hx => List.eq_of_mem_replicate hx) true]
  congr 1
  cases m with
  | zero => rfl
  | succ m =>
    rw [flagAfter_all10 (by simp) (fun x hx => List.eq_of_mem_replicate hx) true]

theorem sim_ni_succ {σ : Type} {wr : σ → List Nat → SinkRes σ Empty}
    {R : σ → List Nat → List Nat → Prop} (laws : SinkLaws σ wr R)
    (req buf : List Nat) (g : Bool) (fut : List Nat) (s : σ) (E : List Nat)
    {k : Nat} (hnn : posNonNl buf = some (k+1))
    (hW : WInv req IndentState.NeedIndent g (buf ++ fut))
    (hR : R s (E ++ pend req g IndentState.NeedIndent)
        (sends req IndentState.NeedIndent (buf ++ fut))) :
    ∃ n st' s',
      writeGo wr req buf IndentState.NeedIndent s = WOut.ok n st' s' ∧
      n ≤ buf.length ∧ (buf ≠ [] → 1 ≤ n) ∧
      WInv req st' (flagAfter g (buf.take n)) (buf.drop n ++ fut) ∧
      R s' (E ++ emitAcc req g (buf.take n)
             ++ pend req (flagAfter g (buf.take n)) st')
        (sends req st' (buf.drop n ++ fut)) := by
  obtain ⟨c, rest, hbuf, hc⟩ := posNonNl_some_decomp hnn
  subst hbuf
  have hrlen : (List.replicate (k+1) (10:Nat)).length = k + 1 := by simp
  have hr10 : ∀ x ∈ List.replicate (k+1) (10:Nat), x = 10 :=
    fun x hx => List.eq_of_mem_replicate hx
  have hpiece : (List.replicate (k+1) 10 ++ c :: rest).take (k+1)
      = List.replicate (k+1) 10 := by
    rw [List.take_append_of_le_length (by simp)]
    rw [List.take_replicate, Nat.min_self]
  have hsend : sends req IndentState.NeedIndent
      ((List.replicate (k+1) 10 ++ c :: rest) ++ fut)
      = List.replicate (k+1) 10 ++ emitAcc req true ((c :: rest) ++ fut) := by
    show emitAcc req true ((List.replicate (k+1) 10 ++ c :: rest) ++ fut) = _
    rw [List.append_assoc]
    exact emit_ni_run req (k+1) ((c :: rest) ++ fut)
  have hpre2 : List.replicate (k+1) (10:Nat)
      = (sends req IndentState.NeedIndent
          ((List.replicate (k+1) 10 ++ c :: rest) ++ fut)).take
          ((List.replicate (k+1) (10:Nat)).length) := by
    rw [hsend, List.take_left]
  obtain ⟨n0, s2, hwr2, h1, hlen, hR2⟩ :=
    laws.wr_cons s _ _ (List.replicate (k+1) 10) hR (by simp) hpre2
  rw [hrlen] at hlen
  have hwr3 : wr s ((List.replicate (k+1) 10 ++ c :: rest).take (k+1))
      = SinkRes.good s2 (Except.ok n0) := by
    rw [hpiece]
    exact hwr2
  have hstep := writeGo_needIndent_succ_ok wr req
    (List.replicate (k+1) 10 ++ c :: rest) s hnn hwr3
  have hFtake : (sends req IndentState.NeedIndent
      ((List.replicate (k+1) 10 ++ c :: rest) ++ fut)).take n0
      = List.replicate n0 (10:Nat) := by
    rw [hsend, List.take_append_of_le_length (by simp; omega)]
    rw [List.take_replicate, Nat.min_eq_left hlen]
  have hFdrop : (sends req IndentState.NeedIndent
      ((List.replicate (k+1) 10 ++ c :: rest) ++ fut)).drop n0
      = List.replicate (k+1-n0) (10:Nat) ++ emitAcc req true ((c :: rest) ++ fut) := by
    rw [hsend, List.drop_append_of_le_length (by simp; omega)]
    rw [List.drop_replicate]
  rw [hFtake, hFdrop] at hR2
  have htk : (List.replicate (k+1) 10 ++ c :: rest).take n0
      = List.replicate n0 (10:Nat) := by
    rw [List.take_append_of_le_length (by simp; omega)]
    rw [List.take_replicate, Nat.min_eq_left hlen]
  have hdr : (List.replicate (k+1) 10 ++ c :: rest).drop n0
      = List.replicate (k+1-n0) (10:Nat) ++ c :: rest := by
    rw [List.drop_append_of_le_length (by simp; omega)]
    rw [List.drop_replicate]
  have hn0nn : List.replicate n0 (10:Nat) ≠ [] := by
    simp [List.replicate_eq_nil_iff]
    omega
  have hflag : flagAfter g ((List.replicate (k+1) 10 ++ c :: rest).take n0)
      = true := by
    rw [htk]
    exact flagAfter_all10 hn0nn (fun x hx => List.eq_of_mem_replicate hx) g
  have hemit : emitAcc req g ((List.replicate (k+1) 10 ++ c :: rest).take n0)
      = List.replicate n0 (10:Nat) := by
    rw [htk]
    exact emitAcc_all10 req (fun x hx => List.eq_of_mem_replicate hx) g
  by_cases hcase : k + 1 ≤ n0
  · rw [if_pos hcase] at hstep
    have hn0 : n0 = k + 1 := by omega
    subst hn0
    have hdr2 : (List.replicate (k+1) 10 ++ c :: rest).drop (k+1) = c :: rest := by
      rw [hdr]
      simp
    refine ⟨k+1, IndentState.WritingIndent 0 req.length, s2, hstep, by simp,
      fun _ => by omega, ?_, ?_⟩
    · rw [hflag, hdr2]
      exact ⟨rfl, Nat.zero_le _, rfl, c, rest ++ fut, by simp, hc⟩
    · rw [hflag, hemit, hdr2]
      have e5 : sends req (IndentState.WritingIndent 0 req.length)
          ((c :: rest) ++ fut)
          = emitAcc req true ((c :: rest) ++ fut) := by
        show _ = sends req IndentState.NeedIndent ((c :: rest) ++ fut)
        rw [show (c :: rest) ++ fut = c :: (rest ++ fut) from rfl]
        exact (sends_ni_non10 req hc (rest ++ fut)).symm
      rw [e5]
      have hsimp : (k+1) - (k+1) = 0 := by omega
      rw [hsimp] at hR2
      simpa [pend] using hR2
  · rw [if_neg hcase] at hstep
    refine ⟨n0, IndentState.NeedIndent, s2, hstep, by simp; omega,
      fun _ => h1, ?_, ?_⟩
    · rw [hflag]
      exact Or.inl rfl
    · rw [hflag, hemit, hdr]
      have e5 : sends req IndentState.NeedIndent
          ((List.replicate (k+1-n0) (10:Nat) ++ c :: rest) ++ fut)
          = List.replicate (k+1-n0) (10:Nat)
              ++ emitAcc req true ((c :: rest) ++ fut) := by
        show emitAcc req true ((List.replicate (k+1-n0) 10 ++ c :: rest) ++ fut) = _
        rw [List.append_assoc]
        exact emit_ni_run req (k+1-n0) ((c :: rest) ++ fut)
      rw [e5]
      simpa [pend] using hR2

/-- Single-call simulation: against any progressive resumable sink, a
`write` call consumes `n` caller bytes, pushes exactly the corresponding
emission to the sink, and re-establishes the coupling invariant. -/
theorem writeGo_simulate {σ : Type} {wr : σ → List Nat → SinkRes σ Empty}
    {R : σ → List Nat → List Nat → Prop} (laws : SinkLaws σ wr R)
    (req buf : List Nat) (g : Bool) (fut : List Nat) :
    ∀ (st : IndentState) (s : σ) (E : List Nat),
    WInv req st g (buf ++ fut) →
    R s (E ++ pend req g st) (sends req st (buf ++ fut)) →
    ∃ n st' s',
      writeGo wr req buf st s = WOut.ok n st' s' ∧
      n ≤ buf.length ∧ (buf ≠ [] → 1 ≤ n) ∧
      WInv req st' (flagAfter g (buf.take n)) (buf.drop n ++ fut) ∧
      R s' (E ++ emitAcc req g (buf.take n)
             ++ pend req (flagAfter g (buf.take n)) st')
        (sends req st' (buf.drop n ++ fut)) := by
  intro st s
  induction st, s using writeGo.induct wr req buf
  case case1 s0 hnl hx =>
    exact fun E hW hR => sim_ml_none laws req buf g fut s0 E hnl hW hR
  case case2 s0 hnl s1 e hx => exact fun E hW hR => e.elim
  case case3 s0 hnl s1 m hx =>
    exact fun E hW hR => sim_ml_none laws req buf g fut s0 E hnl hW hR
  case case4 s0 hnl ih =>
    intro E hW hR
    obtain ⟨pre, rest, hbuf, hplen, hpre⟩ := posNl_some_decomp hnl
    obtain rfl : pre = [] := List.length_eq_zero.mp hplen
    rw [List.nil_append] at hbuf
    subst hbuf
    have hg : g = false := by
      rcases hW with hg | ⟨hg, c, t2, hct, hc⟩
      · exact hg
      · exact absurd (by injection hct with h1 h2; omega) hc
    subst hg
    have hW2 : WInv req IndentState.NeedIndent false ((10 :: rest) ++ fut) :=
      Or.inr ⟨rest ++ fut, by simp⟩
    have hR2 : R s0 (E ++ pend req false IndentState.NeedIndent)
        (sends req IndentState.NeedIndent ((10 :: rest) ++ fut)) := by
      rw [show (10 :: rest) ++ fut = 10 :: (rest ++ fut) from rfl,
        sends_ni_head10]
      exact hR
    obtain ⟨n2, st2, s3, heq, hrest⟩ := ih E hW2 hR2
    exact ⟨n2, st2, s3, by
      rw [writeGo_midLine_zero wr req (10 :: rest) s0 hnl]
      exact heq, hrest⟩
  case case5 s0 k hnl hx =>
    exact fun E hW hR => sim_ml_succ laws req buf g fut s0 E hnl hW hR
  case case6 s0 k hnl s1 e hx => exact fun E hW hR => e.elim
  case case7 s0 k hnl s1 m hx =>
    exact fun E hW hR => sim_ml_succ laws req buf g fut s0 E hnl hW hR
  case case8 s0 hnn hx =>
    exact fun E hW hR => sim_ni_none laws req buf g fut s0 E hnn hW hR
  case case9 s0 hnn s1 e hx => exact fun E hW hR => e.elim
  case case10 s0 hnn s1 m hx =>
    exact fun E hW hR => sim_ni_none laws req buf g fut s0 E hnn hW hR
  case case11 s0 hnn ih =>
    intro E hW hR
    obtain ⟨c, rest, hbuf, hc⟩ := posNonNl_some_decomp hnn
    rw [List.replicate_zero, List.nil_append] at hbuf
    subst hbuf
    have hg : g = true := by
      rcases hW with hg | ⟨t2, hct⟩
      · exact hg
      · exact absurd (by injection hct with h1 h2 <;> omega) hc
    subst hg
    have hW2 : WInv req (IndentState.WritingIndent 0 req.length) true
        ((c :: rest) ++ fut) :=
      ⟨rfl, Nat.zero_le _, rfl, c, rest ++ fut, by simp, hc⟩
    have hR2 : R s0 (E ++ pend req true (IndentState.WritingIndent 0 req.length))
        (sends req (IndentState.WritingIndent 0 req.length) ((c :: rest) ++ fut)) := by
      rw [show (c :: rest) ++ fut = c :: (rest ++ fut) from rfl,
        ← sends_ni_non10 req hc]
      exact hR
    obtain ⟨n2, st2, s3, heq, hrest⟩ := ih E hW2 hR2
    exact ⟨n2, st2, s3, by
      rw [writeGo_needIndent_zero wr req (c :: rest) s0 hnn]
      exact heq, hrest⟩
  case case12 s0 k hnn hx =>
    exact fun E hW hR => sim_ni_succ laws req buf g fut s0 E hnn hW hR
  case case13 s0 k hnn s1 e hx => exact fun E hW hR => e.elim
  case case14 s0 k hnn s1 m hx =>
    exact fun E hW hR => sim_ni_succ laws req buf g fut s0 E hnn hW hR
  case case15 a b s0 hab hx =>
    intro E hW hR
    by_cases hp : (req.take b).drop a = []
    · obtain ⟨s2, hwr2, _⟩ := laws.wr_nil s0 _ _ hR
      rw [hp, hwr2] at hx
      exact nomatch hx
    · have hpre : (req.take b).drop a
          = (sends req (IndentState.WritingIndent a b) (buf ++ fut)).take
              ((req.take b).drop a).length := by
        show _ = ((req.take b).drop a ++ emitAcc req false (buf ++ fut)).take _
        rw [List.take_left]
      obtain ⟨n0, s2, hwr2, _, _, _⟩ := laws.wr_cons s0 _ _ _ hR hp hpre
      rw [hwr2] at hx
      exact nomatch hx
  case case16 a b s0 hab s1 e hx => exact fun E hW hR => e.elim
  case case17 a b s0 hab s1 m hx hfull ih =>
    intro E hW hR
    have hx0 := hx
    obtain ⟨hb, hab2, hg, c, t2, hct, hc⟩ := hW
    subst hg
    have hW2 : WInv req IndentState.MidLine true (buf ++ fut) :=
      Or.inr ⟨rfl, c, t2, hct, hc⟩
    by_cases hp : (req.take b).drop a = []
    · obtain ⟨s2, hwr2, hR3⟩ := laws.wr_nil s0 _ _ hR
      rw [hp, hwr2] at hx
      injection hx with hA hB
      have hba : b - a = 0 := by
        have hsl := @slice_length req a b hab.2
        rw [hp] at hsl
        simpa using hsl.symm
      have ha : a = req.length := by omega
      have hR4 : R s1 (E ++ pend req true IndentState.MidLine)
          (sends req IndentState.MidLine (buf ++ fut)) := by
        have e1 : pend req true (IndentState.WritingIndent a b) = req := by
          show req.take a = req
          rw [ha, List.take_length]
        have e2 : sends req (IndentState.WritingIndent a b) (buf ++ fut)
            = sends req IndentState.MidLine (buf ++ fut) := by
          show (req.take b).drop a ++ emitAcc req false (buf ++ fut) = _
          rw [hp, List.nil_append]
          rfl
        rw [e1, e2] at hR3
        rw [← hA]
        exact hR3
      obtain ⟨n2, st2, s3, heq, hrest⟩ := ih E hW2 hR4
      exact ⟨n2, st2, s3, by
        rw [writeGo_wi_full wr req buf s0 hab hx0 hfull]
        exact heq, hrest⟩
    · have hpre : (req.take b).drop a
          = (sends req (IndentState.WritingIndent a b) (buf ++ fut)).take
              ((req.take b).drop a).length := by
        show _ = ((req.take b).drop a ++ emitAcc req false (buf ++ fut)).take _
        rw [List.take_left]
      obtain ⟨n0, s2, hwr2, h1, hlen0, hR3⟩ := laws.wr_cons s0 _ _ _ hR hp hpre
      rw [hwr2] at hx
      injection hx with hA hB
      injection hB with hC
      have hsl := @slice_length req a b hab.2
      have hn0 : n0 = b - a := by omega
      have hlenp : ((req.take b).drop a).length = n0 := by omega
      have hR4 : R s1 (E ++ pend req true IndentState.MidLine)
          (sends req IndentState.MidLine (buf ++ fut)) := by
        have e1 : (sends req (IndentState.WritingIndent a b) (buf ++ fut)).take n0
            = (req.take b).drop a := by
          show ((req.take b).drop a ++ emitAcc req false (buf ++ fut)).take n0 = _
          rw [← hlenp, List.take_left]
        have e2 : (sends req (IndentState.WritingIndent a b) (buf ++ fut)).drop n0
            = sends req IndentState.MidLine (buf ++ fut) := by
          show ((req.take b).drop a ++ emitAcc req false (buf ++ fut)).drop n0 = _
          rw [← hlenp, List.drop_left]
          rfl
        rw [e1, e2] at hR3
        have e3 : (E ++ pend req true (IndentState.WritingIndent a b))
            ++ (req.take b).drop a = E ++ pend req true IndentState.MidLine := by
          show (E ++ req.take a) ++ (req.take b).drop a = E ++ req
          rw [List.append_assoc, slice_join hab2, hb, List.take_length]
        rw [e3] at hR3
        rw [← hA]
        exact hR3
      obtain ⟨n2, st2, s3, heq, hrest⟩ := ih E hW2 hR4
      exact ⟨n2, st2, s3, by
        rw [writeGo_wi_full wr req buf s0 hab hx0 hfull]
        exact heq, hrest⟩
  case case18 a b s0 hab s1 hx hfull =>
    intro E hW hR
    have hp : (req.take b).drop a ≠ [] := by
      intro hcon
      have hsl := @slice_length req a b hab.2
      rw [hcon] at hsl
      simp only [List.length_nil] at hsl
      omega
    have hpre : (req.take b).drop a
        = (sends req (IndentState.WritingIndent a b) (buf ++ fut)).take
            ((req.take b).drop a).length := by
      show _ = ((req.take b).drop a ++ emitAcc req false (buf ++ fut)).take _
      rw [List.take_left]
    obtain ⟨n0, s2, hwr2, h1, hlen0, hR3⟩ := laws.wr_cons s0 _ _ _ hR hp hpre
    rw [hwr2] at hx
    injection hx with hA hB
    injection hB with hC
    omega
  case case19 a b s0 hab s1 m hx hfull hzero ih =>
    intro E hW hR
    have hx0 := hx
    obtain ⟨hb, hab2, hg, c, t2, hct, hc⟩ := hW
    subst hg
    have hp : (req.take b).drop a ≠ [] := by
      intro hcon
      have hsl := @slice_length req a b hab.2
      rw [hcon] at hsl
      simp only [List.length_nil] at hsl
      omega
    have hpre : (req.take b).drop a
        = (sends req (IndentState.WritingIndent a b) (buf ++ fut)).take
            ((req.take b).drop a).length := by
      show _ = ((req.take b).drop a ++ emitAcc req false (buf ++ fut)).take _
      rw [List.take_left]
    obtain ⟨n0, s2, hwr2, h1, hlen0, hR3⟩ := laws.wr_cons s0 _ _ _ hR hp hpre
    rw [hwr2] at hx
    injection hx with hA hB
    injection hB with hC
    subst hC
    have hsl := @slice_length req a b hab.2
    rw [hsl] at hlen0
    have hW2 : WInv req (IndentState.WritingIndent (a + n0) b) true (buf ++ fut) :=
      ⟨hb, by omega, rfl, c, t2, hct, hc⟩
    have hR4 : R s1 (E ++ pend req true (IndentState.WritingIndent (a + n0) b))
        (sends req (IndentState.WritingIndent (a + n0) b) (buf ++ fut)) := by
      have hlen1 : n0 ≤ ((req.take b).drop a).length := by omega
      have e1 : (sends req (IndentState.WritingIndent a b) (buf ++ fut)).take n0
          = ((req.take b).drop a).take n0 := by
        show ((req.take b).drop a ++ emitAcc req false (buf ++ fut)).take n0 = _
        rw [List.take_append_of_le_length hlen1]
      have e2 : (sends req (IndentState.WritingIndent a b) (buf ++ fut)).drop n0
          = sends req (IndentState.WritingIndent (a + n0) b) (buf ++ fut) := by
        show ((req.take b).drop a ++ emitAcc req false (buf ++ fut)).drop n0 = _
        rw [List.drop_append_of_le_length hlen1, slice_drop]
        rfl
      rw [e1, e2] at hR3
      have e3 : (E ++ pend req true (IndentState.WritingIndent a b))
          ++ ((req.take b).drop a).take n0
          = E ++ pend req true (IndentState.WritingIndent (a + n0) b) := by
        show (E ++ req.take a) ++ ((req.take b).drop a).take n0
          = E ++ req.take (a + n0)
        rw [List.append_assoc, slice_take_join (by omega)]
      rw [e3] at hR3
      rw [← hA]
      exact hR3
    obtain ⟨n2, st2, s3, heq, hrest⟩ := ih E hW2 hR4
    exact ⟨n2, st2, s3, by
      rw [writeGo_wi_part wr req buf s0 hab hx0 hfull hzero]
      exact heq, hrest⟩
  case case20 a b s0 hnab =>
    intro E hW hR
    obtain ⟨hb, hab2, _, _⟩ := hW
    exact absurd ⟨hab2, le_of_eq hb⟩ hnab

/-! ## `write_all` driving and the accumulator sink laws -/

theorem writeAll_nil {σ ε : Type} (wr : σ → List Nat → SinkRes σ ε) (req : List Nat)
    (st : IndentState) (s : σ) : writeAll wr req st s [] = FOut.ok st s := by
  rw [writeAll, dif_pos rfl]

theorem writeAll_step {σ ε : Type} (wr : σ → List Nat → SinkRes σ ε) (req : List Nat)
    (st : IndentState) (s : σ) {rem : List Nat} {n : Nat} {st' : IndentState} {s' : σ}
    (hrem : rem ≠ []) (hw : writeGo wr req rem st s = WOut.ok n st' s')
    (hn : ¬ n = 0) :
    writeAll wr req st s rem = writeAll wr req st' s' (rem.drop n) := by
  conv_lhs => rw [writeAll]
  rw [dif_neg hrem]
  simp only [hw]
  rw [dif_neg hn]

/-- `fullSink` is a lawful progressive sink for the relation "the
accumulator is exactly the accepted history". -/
theorem fullSink_laws : SinkLaws (List Nat) fullSink (fun s H _ => s = H) := by
  constructor
  · intro s H F buf hR hbuf hpre
    refine ⟨buf.length, s ++ buf, rfl, ?_, le_rfl, ?_⟩
    · have h2 : 0 < buf.length := List.length_pos.mpr hbuf
      omega
    · show s ++ buf = H ++ F.take buf.length
      rw [hR, ← hpre]
  · intro s H F hR
    refine ⟨s ++ [], rfl, ?_⟩
    show s ++ [] = H
    rw [List.append_nil, hR]

/-- `oneSink` is a lawful progressive sink for the same relation. -/
theorem oneSink_laws : SinkLaws (List Nat) oneSink (fun s H _ => s = H) := by
  constructor
  · intro s H F buf hR hbuf hpre
    cases buf with
    | nil => exact absurd rfl hbuf
    | cons c t =>
      cases F with
      | nil => simp at hpre
      | cons f ft =>
        simp only [List.length_cons, List.take_succ_cons] at hpre
        injection hpre with h1 h2
        refine ⟨1, s ++ [c], rfl, le_rfl, by simp, ?_⟩
        show s ++ [c] = H ++ (f :: ft).take 1
        rw [hR, h1]
        rfl
  · intro s H F hR
    exact ⟨s, rfl, hR⟩

/-- Driving `write` to completion with `write_all` pushes exactly the
emission of the whole buffer and re-establishes the invariant. -/
theorem writeAll_sim_aux {σ : Type} {wr : σ → List Nat → SinkRes σ Empty}
    {R : σ → List Nat → List Nat → Prop} (laws : SinkLaws σ wr R) (req : List Nat) :
    ∀ (k : Nat) (rem : List Nat), rem.length ≤ k →
    ∀ (g : Bool) (fut : List Nat) (st : IndentState) (s : σ) (E : List Nat),
    WInv req st g (rem ++ fut) →
    R s (E ++ pend req g st) (sends req st (rem ++ fut)) →
    ∃ st' s',
      writeAll wr req st s rem = FOut.ok st' s' ∧
      WInv req st' (flagAfter g rem) fut ∧
      R s' (E ++ emitAcc req g rem ++ pend req (flagAfter g rem) st')
        (sends req st' fut) := by
  intro k
  induction k with
  | zero =>
    intro rem hk g fut st s E hW hR
    have hrem : rem = [] := List.eq_nil_of_length_eq_zero (by omega)
    subst hrem
    refine ⟨st, s, writeAll_nil wr req st s, ?_, ?_⟩
    · simpa using hW
    · simpa [emitAcc] using hR
  | succ k ih =>
    intro rem hk g fut st s E hW hR
    by_cases hrem : rem = []
    · subst hrem
      refine ⟨st, s, writeAll_nil wr req st s, ?_, ?_⟩
      · simpa using hW
      · simpa [emitAcc] using hR
    · obtain ⟨n, st1, s1, heq, hlen, hpos, hW1, hR1⟩ :=
        writeGo_simulate laws req rem g fut st s E hW hR
      have hn1 : 1 ≤ n := hpos hrem
      have hstep := writeAll_step wr req st s hrem heq (by omega)
      have hk2 : (rem.drop n).length ≤ k := by
        rw [List.length_drop]
        have h3 : 0 < rem.length := List.length_pos.mpr hrem
        omega
      obtain ⟨st2, s2, heq2, hW2, hR2⟩ :=
        ih (rem.drop n) hk2 (flagAfter g (rem.take n)) fut st1 s1
          (E ++ emitAcc req g (rem.take n)) hW1 hR1
      have hemit : emitAcc req g rem
          = emitAcc req g (rem.take n)
            ++ emitAcc req (flagAfter g (rem.take n)) (rem.drop n) := by
        conv_lhs => rw [← List.take_append_drop n rem]
        rw [emitAcc_append]
      have hflag : flagAfter g rem
          = flagAfter (flagAfter g (rem.take n)) (rem.drop n) := by
        conv_lhs => rw [← List.take_append_drop n rem]
        rw [flagAfter_append]
      refine ⟨st2, s2, ?_, ?_, ?_⟩
      · rw [hstep]
        exact heq2
      · rw [hflag]
        exact hW2
      · rw [hemit, hflag, ← List.append_assoc]
        exact hR2

/-- At the end of the caller stream, the coupling invariant pins the
machine state to the boundary state of the owed-flag. -/
theorem wInv_nil_boundary {req : List Nat} {st : IndentState} {g : Bool}
    (h : WInv req st g []) : st = stOf g := by
  cases st with
  | MidLine =>
    rcases h with hg | ⟨hg, c, t, hct, hc⟩
    · subst hg
      rfl
    · exact absurd hct (by simp)
  | NeedIndent =>
    rcases h with hg | ⟨t, hct⟩
    · subst hg
      rfl
    · exact absurd hct (by simp)
  | WritingIndent a b =>
    obtain ⟨h1, h2, h3, c, t, hct, hc⟩ := h
    exact absurd hct (by simp)

theorem pend_stOf (req : List Nat) (g : Bool) : pend req g (stOf g) = [] := by
  cases g <;> rfl

theorem wInv_stOf (req : List Nat) (g : Bool) (f : List Nat) :
    WInv req (stOf g) g f := by
  cases g
  · exact Or.inl rfl
  · exact Or.inl rfl

theorem sends_stOf_nil (req : List Nat) (g : Bool) : sends req (stOf g) [] = [] := by
  cases g <;> rfl

/-- Against an accumulator-like lawful sink, `write_all` from a boundary
state is fully deterministic: it appends exactly the emission of the
buffer and lands in the boundary state of the new owed-flag. -/
theorem writeAll_acc {wr : List Nat → List Nat → SinkRes (List Nat) Empty}
    (laws : SinkLaws (List Nat) wr (fun s H _ => s = H))
    (req buf acc : List Nat) (g : Bool) :
    writeAll wr req (stOf g) acc buf
      = FOut.ok (stOf (flagAfter g buf)) (acc ++ emitAcc req g buf) := by
  have hW : WInv req (stOf g) g (buf ++ []) := wInv_stOf req g (buf ++ [])
  have hR : (fun (s H : List Nat) (_ : List Nat) => s = H) acc
      (acc ++ pend req g (stOf g)) (sends req (stOf g) (buf ++ [])) := by
    show acc = acc ++ pend req g (stOf g)
    rw [pend_stOf, List.append_nil]
  obtain ⟨st', s', heq, hW', hR'⟩ :=
    writeAll_sim_aux laws req buf.length buf le_rfl g [] (stOf g) acc acc hW hR
  have hst : st' = stOf (flagAfter g buf) := wInv_nil_boundary hW'
  subst hst
  have hs : s' = acc ++ emitAcc req g buf := by
    have h2 : s' = acc ++ emitAcc req g buf ++ pend req (flagAfter g buf)
        (stOf (flagAfter g buf)) := hR'
    rw [pend_stOf, List.append_nil] at h2
    exact h2
  rw [heq, hs]

/-- `dec` never touches the machine state. -/
theorem dec_state {w w' : IndentWriter} (h : w.dec = some w') : w'.state = w.state := by
  rw [IndentWriter.dec] at h
  split at h
  · injection h with h2
    rw [← h2]
  · exact nomatch h

/-- Running any program from a boundary machine state against the one-byte
accumulator produces exactly the same outcome as against the full-accepting
accumulator. -/
theorem runProg_acc_eq :
    ∀ (prog : List Cmd) (w : IndentWriter) (acc : List Nat) (g : Bool),
    w.state = stOf g →
    runProg oneSink accFlush prog w acc = runProg fullSink accFlush prog w acc := by
  intro prog
  induction prog with
  | nil =>
    intro w acc g hst
    cases g with
    | false =>
      simp only [runProg, hst]
      rw [show stOf false = IndentState.MidLine from rfl]
      rw [flushGo_midLine_ok oneSink accFlush w.required_indent acc rfl,
        flushGo_midLine_ok fullSink accFlush w.required_indent acc rfl]
    | true =>
      simp only [runProg, hst]
      rw [show stOf true = IndentState.NeedIndent from rfl]
      rw [flushGo_needIndent_ok oneSink accFlush w.required_indent acc rfl,
        flushGo_needIndent_ok fullSink accFlush w.required_indent acc rfl]
  | cons c rest ih =>
    intro w acc g hst
    cases c with
    | inc =>
      simp only [runProg]
      exact ih w.inc acc g hst
    | dec =>
      simp only [runProg]
      cases hdec : w.dec with
      | none => rfl
      | some w' =>
        exact ih w' acc g (by rw [dec_state hdec, hst])
    | reset =>
      simp only [runProg]
      exact ih w.reset acc g hst
    | write buf =>
      simp only [runProg, hst]
      rw [writeAll_acc oneSink_laws w.required_indent buf acc g,
        writeAll_acc fullSink_laws w.required_indent buf acc g]
      exact ih { w with state := stOf (flagAfter g buf) }
        (acc ++ emitAcc w.required_indent g buf) (flagAfter g buf) rfl

/-- C5: for every indent unit and every program of level changes and
driven-to-completion writes, running through an adapter whose sink accepts
at most one byte per call yields, after the final flush, exactly the same
outcome (including the accumulated output bytes) as running through a sink
that fully accepts every write. -/
theorem c5_one_byte_sink_matches_full_sink (unit : List Nat) (prog : List Cmd) :
    runProg oneSink accFlush prog (IndentWriter.new unit) []
      = runProg fullSink accFlush prog (IndentWriter.new unit) [] :=
  runProg_acc_eq prog (IndentWriter.new unit) [] true rfl

/-! ## C8: nesting two adapters -/

/-- The stacked adapter-as-sink is itself a lawful progressive sink for the
relation `nestR`. -/
theorem nest_laws (reqOut : List Nat) :
    SinkLaws (IndentState × List Nat) (nestWr reqOut) (nestR reqOut) := by
  constructor
  · intro p H F buf hR hbuf hpre
    obtain ⟨hW, hs⟩ := hR
    have hF : buf ++ F.drop buf.length = F := by
      conv_rhs => rw [← List.take_append_drop buf.length F]
      rw [← hpre]
    have hW2 : WInv reqOut p.1 (flagAfter true H) (buf ++ F.drop buf.length) := by
      rw [hF]
      exact hW
    have hR2 : (fun (s H : List Nat) (_ : List Nat) => s = H) p.2
        (emitAcc reqOut true H ++ pend reqOut (flagAfter true H) p.1)
        (sends reqOut p.1 (buf ++ F.drop buf.length)) := hs
    obtain ⟨n, st', s', heq, hlen, hpos, hW3, hR3⟩ :=
      writeGo_simulate fullSink_laws reqOut buf (flagAfter true H)
        (F.drop buf.length) p.1 p.2 (emitAcc reqOut true H) hW2 hR2
    have htk : buf.take n = F.take n := by
      rw [hpre, List.take_take, Nat.min_eq_left hlen]
    have hdr : F.drop n = buf.drop n ++ F.drop buf.length := by
      conv_lhs => rw [← hF]
      rw [List.drop_append_of_le_length hlen]
    refine ⟨n, (st', s'), ?_, hpos hbuf, hlen, ?_, ?_⟩
    · simp only [nestWr, heq]
    · show WInv reqOut st' (flagAfter true (H ++ F.take n)) (F.drop n)
      rw [flagAfter_append, ← htk, hdr]
      exact hW3
    · show s' = emitAcc reqOut true (H ++ F.take n)
        ++ pend reqOut (flagAfter true (H ++ F.take n)) st'
      rw [emitAcc_append, flagAfter_append, ← htk]
      exact hR3
  · intro p H F hR
    obtain ⟨hW, hs⟩ := hR
    cases hst : p.1 with
    | MidLine =>
      rw [hst] at hW hs
      refine ⟨(IndentState.MidLine, p.2 ++ []), ?_, ?_, ?_⟩
      · simp only [nestWr, hst]
        rw [writeGo_midLine_none_ok fullSink reqOut [] p.2 rfl rfl]
        rfl
      · exact hW
      · show p.2 ++ [] = emitAcc reqOut true H ++ pend reqOut (flagAfter true H)
          IndentState.MidLine
        rw [List.append_nil, hs]
    | NeedIndent =>
      rw [hst] at hW hs
      refine ⟨(IndentState.NeedIndent, p.2 ++ []), ?_, ?_, ?_⟩
      · simp only [nestWr, hst]
        rw [writeGo_needIndent_none_ok fullSink reqOut [] p.2 rfl rfl]
        rfl
      · exact hW
      · show p.2 ++ [] = emitAcc reqOut true H ++ pend reqOut (flagAfter true H)
          IndentState.NeedIndent
        rw [List.append_nil, hs]
    | WritingIndent a b =>
      rw [hst] at hW hs
      obtain ⟨hb, hab2, hg, c, t, hct, hc⟩ := hW
      have hsl : ((reqOut.take b).drop a).length = b - a :=
        slice_length (le_of_eq hb)
      have hwfull : fullSink p.2 ((reqOut.take b).drop a)
          = SinkRes.good (p.2 ++ (reqOut.take b).drop a)
              (Except.ok ((reqOut.take b).drop a).length) := rfl
      refine ⟨(IndentState.MidLine, p.2 ++ (reqOut.take b).drop a ++ []), ?_, ?_, ?_⟩
      · simp only [nestWr, hst]
        rw [writeGo_wi_full fullSink reqOut [] p.2 ⟨hab2, le_of_eq hb⟩ hwfull
          (by omega)]
        rw [writeGo_midLine_none_ok fullSink reqOut []
          (p.2 ++ (reqOut.take b).drop a) rfl rfl]
        rfl
      · exact Or.inr ⟨hg, c, t, hct, hc⟩
      · show p.2 ++ (reqOut.take b).drop a ++ []
          = emitAcc reqOut true H ++ pend reqOut (flagAfter true H)
              IndentState.MidLine
        have hpML : pend reqOut (flagAfter true H) IndentState.MidLine = reqOut := by
          rw [hg]
          rfl
        have hpWI : pend reqOut (flagAfter true H) (IndentState.WritingIndent a b)
            = reqOut.take a := rfl
        rw [hpWI] at hs
        rw [hpML, List.append_nil, hs, List.append_assoc, slice_join hab2, hb,
          List.take_length]

/-- Feeding chunks through an adapter against any lawful sink pushes the
emission of the concatenation: the output is independent of the chunking. -/
theorem runChunks_simulate {σ : Type} {wr : σ → List Nat → SinkRes σ Empty}
    {R : σ → List Nat → List Nat → Prop} (laws : SinkLaws σ wr R) (req : List Nat) :
    ∀ (chunks : List (List Nat)) (g : Bool) (st : IndentState) (s : σ) (E : List Nat),
    WInv req st g chunks.flatten →
    R s (E ++ pend req g st) (sends req st chunks.flatten) →
    ∃ st' s',
      runChunks wr req chunks st s = FOut.ok st' s' ∧
      WInv req st' (flagAfter g chunks.flatten) [] ∧
      R s' (E ++ emitAcc req g chunks.flatten
             ++ pend req (flagAfter g chunks.flatten) st') (sends req st' []) := by
  intro chunks
  induction chunks with
  | nil =>
    intro g st s E hW hR
    refine ⟨st, s, rfl, hW, ?_⟩
    simpa [emitAcc] using hR
  | cons c rest ih =>
    intro g st s E hW hR
    have hflat : (c :: rest).flatten = c ++ rest.flatten := rfl
    rw [hflat] at hW hR
    obtain ⟨st1, s1, heq1, hW1, hR1⟩ :=
      writeAll_sim_aux laws req c.length c le_rfl g rest.flatten st s E hW hR
    obtain ⟨st2, s2, heq2, hW2, hR2⟩ :=
      ih (flagAfter g c) st1 s1 (E ++ emitAcc req g c) hW1 hR1
    refine ⟨st2, s2, ?_, ?_, ?_⟩
    · simp only [runChunks, heq1]
      exact heq2
    · rw [hflat, flagAfter_append]
      exact hW2
    · rw [hflat, flagAfter_append, emitAcc_append, ← List.append_assoc]
      exact hR2

/-- Emission of one complete non-empty line from the owed state: the
materialized indent is inserted once, before the first byte. -/
theorem emitAcc_line (req : List Nat) {L : List Nat} (hL : ∀ x ∈ L, ¬ x = 10)
    (hne : L ≠ []) : emitAcc req true (L ++ [10]) = req ++ L ++ [10] := by
  cases L with
  | nil => exact absurd rfl hne
  | cons c t =>
    have hc : ¬ c = 10 := hL c (by simp)
    have ht : ∀ x ∈ t, ¬ x = 10 := fun x hx => hL x (by simp [hx])
    show emitStep req true c ++ emitAcc req (flagStep c) (t ++ [10]) = _
    rw [show flagStep c = false from by simp [flagStep, hc]]
    rw [emitAcc_append, emitAcc_no10 req ht, flagAfter_no10_weak req ht,
      emitAcc_single10]
    simp [emitStep, hc]

/-- A list ending in a newline leaves an indent owed. -/
theorem flagAfter_concat10 (g : Bool) (x : List Nat) :
    flagAfter g (x ++ [10]) = true := by
  rw [flagAfter_append]
  rfl

/-- Emission preserves "ends at a line boundary". -/
theorem flagAfter_emit_true (req : List Nat) {l : List Nat}
    (hl : flagAfter true l = true) :
    flagAfter true (emitAcc req true l) = true := by
  rcases List.eq_nil_or_concat l with hnil | ⟨l2, c, hcc⟩
  · subst hnil
    rfl
  · subst hcc
    rw [List.concat_eq_append] at hl ⊢
    have hc10 : c = 10 := by
      have h2 := hl
      rw [flagAfter_append] at h2
      simpa [flagAfter, flagStep] using h2
    subst hc10
    rw [emitAcc_append, emitAcc_single10, flagAfter_concat10]

/-- C8: nesting two adapters — an inner adapter with materialized indent
`reqIn` writing into an outer adapter with materialized indent `reqOut`
over an accumulator — however the caller splits the input into write
calls, a non-empty logical line starting at a line boundary of the input
appears in the final output prefixed by the outer indent followed by the
inner indent. -/
theorem c8_nested_adapters_double_indent
    (reqOut reqIn : List Nat) (chunks : List (List Nat)) (pre line rest : List Nat)
    (hIn : ∀ x ∈ reqIn, ¬ x = 10) (hline : ∀ x ∈ line, ¬ x = 10)
    (hne : line ≠ []) (hpre : flagAfter true pre = true)
    (hsplit : chunks.flatten = pre ++ line ++ 10 :: rest) :
    ∃ stI stO,
      runChunks (nestWr reqOut) reqIn chunks IndentState.NeedIndent
          (IndentState.NeedIndent, [])
        = FOut.ok stI
            (stO,
             emitAcc reqOut true (emitAcc reqIn true pre)
               ++ (reqOut ++ reqIn ++ line ++ [10])
               ++ emitAcc reqOut true (emitAcc reqIn true rest)) := by
  have hW : WInv reqIn IndentState.NeedIndent true chunks.flatten := Or.inl rfl
  have hR : nestR reqOut (IndentState.NeedIndent, [])
      ([] ++ pend reqIn true IndentState.NeedIndent)
      (sends reqIn IndentState.NeedIndent chunks.flatten) := ⟨Or.inl rfl, rfl⟩
  obtain ⟨stI, p', heq, hW', hR'⟩ :=
    runChunks_simulate (nest_laws reqOut) reqIn chunks true
      IndentState.NeedIndent (IndentState.NeedIndent, []) [] hW hR
  obtain ⟨stO0, acc⟩ := p'
  have hstI : stI = stOf (flagAfter true chunks.flatten) := wInv_nil_boundary hW'
  subst hstI
  have hR2 : nestR reqOut (stO0, acc) (emitAcc reqIn true chunks.flatten) [] := by
    have h3 := hR'
    rw [pend_stOf, sends_stOf_nil, List.append_nil, List.nil_append] at h3
    exact h3
  obtain ⟨hWO, hacc⟩ := hR2
  have hstO : stO0
      = stOf (flagAfter true (emitAcc reqIn true chunks.flatten)) :=
    wInv_nil_boundary hWO
  have hflag2 : flagAfter true (emitAcc reqIn true pre) = true :=
    flagAfter_emit_true reqIn hpre
  have hlin : ∀ x ∈ reqIn ++ line, ¬ x = 10 := by
    intro x hx
    rcases List.mem_append.mp hx with h | h
    · exact hIn x h
    · exact hline x h
  have hlinne : reqIn ++ line ≠ [] := by
    intro hcon
    exact hne (List.append_eq_nil.mp hcon).2
  have hEin : emitAcc reqIn true chunks.flatten
      = emitAcc reqIn true pre
        ++ ((reqIn ++ line ++ [10]) ++ emitAcc reqIn true rest) := by
    rw [hsplit]
    rw [show (pre ++ line) ++ 10 :: rest = pre ++ ((line ++ [10]) ++ rest) from
      by simp]
    rw [emitAcc_append, hpre, emitAcc_append, flagAfter_concat10,
      emitAcc_line reqIn hline hne]
  have hEout : emitAcc reqOut true (emitAcc reqIn true chunks.flatten)
      = emitAcc reqOut true (emitAcc reqIn true pre)
        ++ ((reqOut ++ (reqIn ++ line) ++ [10])
             ++ emitAcc reqOut true (emitAcc reqIn true rest)) := by
    rw [hEin, emitAcc_append, hflag2, emitAcc_append, flagAfter_concat10,
      emitAcc_line reqOut hlin hlinne]
  refine ⟨stOf (flagAfter true chunks.flatten), stO0, ?_⟩
  rw [heq]
  have haccv : acc
      = emitAcc reqOut true (emitAcc reqIn true pre)
        ++ (reqOut ++ reqIn ++ line ++ [10])
        ++ emitAcc reqOut true (emitAcc reqIn true rest) := by
    have h4 : acc = emitAcc reqOut true (emitAcc reqIn true chunks.flatten)
        ++ pend reqOut (flagAfter true (emitAcc reqIn true chunks.flatten))
            stO0 := hacc
    rw [hstO, pend_stOf, List.append_nil, hEout] at h4
    rw [h4]
    simp [List.append_assoc]
  rw [haccv]

/-- Witness for C8: outer indent `[9]`, inner indent `[32]`, the line
`[97]` with its newline split across two write calls; the output is the
double-indented line. -/
theorem c8_nested_adapters_double_indent_witness :
    ∃ stI stO,
      runChunks (nestWr [9]) [32] [[97], [10]] IndentState.NeedIndent
          (IndentState.NeedIndent, [])
        = FOut.ok stI
            (stO,
             emitAcc [9] true (emitAcc [32] true [])
               ++ ([9] ++ [32] ++ [97] ++ [10])
               ++ emitAcc [9] true (emitAcc [32] true [])) :=
  c8_nested_adapters_double_indent [9] [32] [[97], [10]] [] [97] []
    (by decide) (by decide) (by decide) (by decide) (by decide)
